import Mathlib

/-!
Verification of the amaizfinance/redis-operator replication engine and
object generator against its natural-language specification.

The file is a shallow embedding of the relevant Go sources:

* the replication engine (`instance`, `instances`, `selectMaster`, `Less`,
  `promoteReplicaToMaster`, `Reconfigure`, `New`, `Disconnect`) of the
  redis package;
* the `INFO replication` parser: `refresh` together with the line shapes
  accepted by the regular expression built in `buildInfoReplicationRe`;
* the configuration-map generator `generateConfigMap` of the controllers
  package together with its deny-list `excludedConfigDirectives`;
* the structural containment comparator `deepContains` (its implementation
  is not among the sources at hand, only its tests; it is modelled from the
  specification's description, with the behaviour on function values and on
  untyped nil taken from the expectations recorded in `Test_deepContains`).

Side effects are made explicit: replication commands issued to instances are
collected in a list of `Cmd` values, the outcome of the promotion poll and of
the per-instance `INFO` queries are oracles passed as function arguments, and
connection open/close events are tracked as lists of addresses.
-/

set_option maxHeartbeats 1600000

namespace RedisOperator

/-! ## Constants (redis package) -/

/-- Role markers as seen in the `INFO replication` output. -/
def RoleMaster : String := "role:master"

/-- Role marker of a replica. -/
def RoleReplica : String := "role:slave"

/-- Minimum desired size of the replication (`MinimumFailoverSize = 2`). -/
def MinimumFailoverSize : Nat := 2

/-! ## Data model -/

/-- `Address` represents the Host:Port pair of an instance. -/
structure Address where
  host : String
  port : String
deriving DecidableEq, Repr

/-- The zero value `Address{}` of the Go struct. -/
def emptyAddress : Address := { host := "", port := "" }

/-- A nested replica record as advertised by a master in its `slaveN:...`
lines.  In Go this is the same `instance` struct; `refresh` populates only
the address (`ip=`, `port=`) and the replication offset (`offset=`) of a
nested record, and only its address is ever read back (by `Reconfigure`),
so the embedding gives the nested record exactly those fields. -/
structure replica where
  address : Address := emptyAddress
  replicationOffset : Int := 0
deriving DecidableEq, Repr

/-- The `instance` struct: the subset of fields returned by INFO.  The Go
struct also owns a connection handle (`client`); connections are modelled
separately (see `New`), as lists of addresses opened and closed. -/
structure Instance where
  address : Address := emptyAddress
  role : String := ""
  replicationOffset : Int := 0
  connectedReplicas : Int := 0
  replicas : List replica := []
  replicaPriority : Int := 0
  masterHost : String := ""
  masterPort : String := ""
  masterLinkStatus : String := ""
deriving DecidableEq, Repr

/-- The all-zero `instance{}` record. -/
def zeroInstance : Instance := {}

/-- `instances` is a sequence of instance records. -/
abbrev instances := List Instance

/-! ## Primary selection -/

/-- The loop test of the first loop of `selectMaster`: the instance is not
skipped as a replica and has at least one connected replica. -/
def workingMasterB (i : Instance) : Bool :=
  !(i.role == RoleReplica) && decide (0 < i.connectedReplicas)

/-- The loop test of the second loop of `selectMaster` (also the filter used
by `Reconfigure` to collect promotion candidates): a replica whose priority
is not zero. -/
def viableReplicaB (i : Instance) : Bool :=
  i.role == RoleReplica && !(i.replicaPriority == 0)

/-- `selectMaster` chooses any working master in case of a working
replication, or any other master otherwise.  First loop: return the first
non-replica with `connectedReplicas > 0`.  Second loop: if some replica has
nonzero priority, the master was lost, return nil.  Otherwise return the
first element of a non-empty set, or nil for the empty set. -/
def selectMaster (ins : instances) : Option Instance :=
  match ins.find? workingMasterB with
  | some i => some i
  | none => if ins.any viableReplicaB then none else ins.head?

/-! ## Candidate ordering and promotion -/

/-- `Less` chooses an instance with a lesser priority and a higher
replication offset otherwise. -/
def Less (i j : Instance) : Bool :=
  if i.replicaPriority == j.replicaPriority then
    decide (j.replicationOffset < i.replicationOffset)
  else
    decide (i.replicaPriority < j.replicaPriority)

/-- `sort.Sort(ins)`: a permutation of `ins` ordered so that no later
element is `Less` than an earlier one.  Go's sort is realized here by
`List.mergeSort` under the complement relation. -/
def sortInstances (ins : instances) : instances :=
  ins.mergeSort (fun a b => !Less b a)

/-- A replication reassignment command: the transaction sent by
`replicaOf` to the instance at `receiver`, pointing it at `target`. -/
structure Cmd where
  receiver : Address
  target : Address
deriving DecidableEq, Repr

/-- The `REPLICAOF NO ONE` sentinel: `replicaOf` substitutes host `NO`,
port `ONE` when called with the zero address. -/
def noOne : Address := { host := "NO", port := "ONE" }

/-- `replicaOf` changes the replication settings of a replica on the fly;
called with the zero address it promotes the receiver to master. -/
def replicaOf (i : Instance) (master : Address) : Cmd :=
  if master = emptyAddress then { receiver := i.address, target := noOne }
  else { receiver := i.address, target := master }

/-- Promotion candidates collected by `Reconfigure` when the master was
lost: replicas with nonzero priority, in order. -/
def promotionCandidates (ins : instances) : instances :=
  ins.filter viableReplicaB

/-- `promoteReplicaToMaster` sorts the candidates, takes the first, issues
`replicaOf(Address{})` to it and then polls its topology until it reports
itself as master.  The poll (a network interaction bounded by the failover
timeout) is an oracle: `poll promoted` is the state of the promoted record
once polling succeeded, or `none` on error/timeout.  On the empty sequence
the Go code would index an empty slice (see claim C10); this is modelled as
a command-free failure. -/
def promoteReplicaToMaster (poll : Instance → Option Instance) (ins : instances) :
    List Cmd × Option Instance :=
  match sortInstances ins with
  | [] => ([], none)
  | promoted :: _ => ([replicaOf promoted emptyAddress], poll promoted)

/-- The addresses advertised by the master in its replica list. -/
def connectedAddresses (master : Instance) : List Address :=
  master.replicas.map (fun r => r.address)

/-- The orphaned instances: address differs from the master's and is not in
the master's advertised replica list. -/
def orphanedReplicas (ins : instances) (master : Instance) : instances :=
  ins.filter (fun i =>
    !(i.address == master.address) && !((connectedAddresses master).contains i.address))

/-- `reconfigureAsReplicasOf` issues `replicaOf master` to every instance of
the sequence (in Go: simultaneously; the command list keeps the sequence
order). -/
def reconfigureAsReplicasOf (ins : instances) (master : Address) : List Cmd :=
  ins.map (fun i => replicaOf i master)

/-- `Reconfigure` checks the state of the replication and fixes it: empty
set succeeds with no action; otherwise select a master, promoting the best
candidate if the master was lost, and reconfigure every orphaned instance
as a replica of it.  Returns the issued commands and whether the promotion
step (if any) succeeded; errors of the orphan dispatch itself are network
effects outside the model. -/
def Reconfigure (poll : Instance → Option Instance) (ins : instances) :
    List Cmd × Bool :=
  if ins.length == 0 then ([], true)
  else
    match selectMaster ins with
    | some master =>
        (reconfigureAsReplicasOf (orphanedReplicas ins master) master.address, true)
    | none =>
        match promoteReplicaToMaster poll (promotionCandidates ins) with
        | (cmds, none) => (cmds, false)
        | (cmds, some master) =>
            (cmds ++ reconfigureAsReplicasOf (orphanedReplicas ins master) master.address,
             true)

/-! ## The INFO replication parser

`refresh` decides the role from the literal role markers and then folds an
attribute switch over every line matched by the regular expression built in
`buildInfoReplicationRe`.  Every alternative of that expression is anchored
by `^` and (lazily, after optional whitespace) by `$` in multi-line mode, so
each match is one full line; the embedding therefore splits the body at
newlines and matches the accepted line shapes directly. -/

/-- Field name constants, as in the Go source. -/
def connectedReplicas : String := "connected_slaves"

/-- `master_repl_offset`. -/
def masterReplOffset : String := "master_repl_offset"

/-- `slave_priority`. -/
def replicaPriority : String := "slave_priority"

/-- `slave_repl_offset`. -/
def replicationOffset : String := "slave_repl_offset"

/-- `master_host`. -/
def masterHost : String := "master_host"

/-- `master_port`. -/
def masterPort : String := "master_port"

/-- `master_link_status`. -/
def masterLinkStatus : String := "master_link_status"

/-- The regexp class `\d`. -/
def isDigitC (c : Char) : Bool := '0' ≤ c && c ≤ '9'

/-- The regexp class `\s`, restricted to characters that can occur inside a
line (RE2 whitespace minus the newline the body was split at). -/
def isSpaceC (c : Char) : Bool := c == ' ' || c == '\t' || c == '\r' || c == '\x0c'

/-- The regexp class `\w`. -/
def isWordC (c : Char) : Bool :=
  isDigitC c || ('a' ≤ c && c ≤ 'z') || ('A' ≤ c && c ≤ 'Z') || c == '_'

/-- Whether the first list occurs at the start of the second. -/
def startsWithL : List Char → List Char → Bool
  | [], _ => true
  | _ :: _, [] => false
  | p :: ps, c :: cs => p == c && startsWithL ps cs

/-- Whether `pat` occurs anywhere in the list (Go `strings.Contains`). -/
def containsL (pat : List Char) : List Char → Bool
  | [] => startsWithL pat []
  | c :: cs => startsWithL pat (c :: cs) || containsL pat cs

/-- Go `strings.Contains(s, pat)`. -/
def strContains (s pat : String) : Bool := containsL pat.data s.data

/-- Strip the first list from the start of the second, or fail. -/
def chopStart? : List Char → List Char → Option (List Char)
  | [], cs => some cs
  | _ :: _, [] => none
  | p :: ps, c :: cs => if p == c then chopStart? ps cs else none

/-- Go `strings.Split` on a one-character separator. -/
def splitChar (sep : Char) : List Char → List (List Char)
  | [] => [[]]
  | c :: cs =>
    match splitChar sep cs with
    | [] => [[]]
    | r :: rs => if c == sep then [] :: r :: rs else (c :: r) :: rs

/-- One octet of the IPv4 expression `25[0-5]|2[0-4][0-9]|[01]?[0-9][0-9]?`. -/
def octetValid (ds : List Char) : Bool :=
  match ds with
  | [a] => isDigitC a
  | [a, b] => isDigitC a && isDigitC b
  | [a, b, c] =>
      ((a == '0' || a == '1') && isDigitC b && isDigitC c) ||
      (a == '2' && b == '5' && ('0' ≤ c && c ≤ '5')) ||
      (a == '2' && ('0' ≤ b && b ≤ '4') && isDigitC c)
  | _ => false

/-- The IPv4 address expression: four valid octets joined by dots. -/
def ipv4Valid (cs : List Char) : Bool :=
  match splitChar '.' cs with
  | [a, b, c, d] => octetValid a && octetValid b && octetValid c && octetValid d
  | _ => false

/-- A numeric field line: `^name:\d+\s*?$`. -/
def numLineMatches (name : String) (cs : List Char) : Bool :=
  match chopStart? (name.data ++ [':']) cs with
  | none => false
  | some rest =>
      !(rest.takeWhile isDigitC).isEmpty && (rest.dropWhile isDigitC).all isSpaceC

/-- A word field line: `^name:\w+\s*?$`. -/
def strLineMatches (name : String) (cs : List Char) : Bool :=
  match chopStart? (name.data ++ [':']) cs with
  | none => false
  | some rest =>
      !(rest.takeWhile isWordC).isEmpty && (rest.dropWhile isWordC).all isSpaceC

/-- The master-host line: `^master_host:IPv4\s*?$`. -/
def hostLineMatches (cs : List Char) : Bool :=
  match chopStart? (masterHost.data ++ [':']) cs with
  | none => false
  | some rest =>
      ipv4Valid (rest.takeWhile (fun c => !isSpaceC c)) &&
      (rest.dropWhile (fun c => !isSpaceC c)).all isSpaceC

/-- A replica line advertised by a master:
`^slave\d+:ip=IPv4,port=\d{1,5},state=\w+,offset=\d+,lag=\d+\s*?$`. -/
def replicaLineMatches (cs : List Char) : Bool :=
  match chopStart? ("slave".data) cs with
  | none => false
  | some r1 =>
    let ds := r1.takeWhile isDigitC
    if ds.isEmpty then false else
    match chopStart? (":ip=".data) (r1.dropWhile isDigitC) with
    | none => false
    | some r2 =>
      let ip := r2.takeWhile (fun c => !(c == ','))
      if !ipv4Valid ip then false else
      match chopStart? (",port=".data) (r2.dropWhile (fun c => !(c == ','))) with
      | none => false
      | some r3 =>
        let ps := r3.takeWhile isDigitC
        if ps.isEmpty || decide (5 < ps.length) then false else
        match chopStart? (",state=".data) (r3.dropWhile isDigitC) with
        | none => false
        | some r4 =>
          let ws := r4.takeWhile isWordC
          if ws.isEmpty then false else
          match chopStart? (",offset=".data) (r4.dropWhile isWordC) with
          | none => false
          | some r5 =>
            let os := r5.takeWhile isDigitC
            if os.isEmpty then false else
            match chopStart? (",lag=".data) (r5.dropWhile isDigitC) with
            | none => false
            | some r6 =>
              let ls := r6.takeWhile isDigitC
              !ls.isEmpty && (r6.dropWhile isDigitC).all isSpaceC

/-- Whether the info-replication regexp matches this line.  The alternation
is built by ranging over a Go map, so its order varies between runs; since
every alternative matches only full lines of mutually exclusive shapes, the
matched strings do not depend on that order. -/
def lineMatches (cs : List Char) : Bool :=
  numLineMatches connectedReplicas cs || numLineMatches masterReplOffset cs ||
  numLineMatches replicaPriority cs || numLineMatches replicationOffset cs ||
  numLineMatches masterPort cs || hostLineMatches cs ||
  strLineMatches masterLinkStatus cs || replicaLineMatches cs

/-- `strings.TrimSpace` on a matched line. -/
def trimSpaceC (cs : List Char) : List Char :=
  ((cs.dropWhile isSpaceC).reverse.dropWhile isSpaceC).reverse

/-- `FindAllString` of the info-replication regexp followed by the trimming
done in `refresh`: the matching lines without surrounding whitespace. -/
def parsedLines (info : String) : List (List Char) :=
  ((splitChar '\n' info.data).filter lineMatches).map trimSpaceC

/-- Decimal value of a digit string. -/
def digitsToNat (cs : List Char) : Nat :=
  cs.foldl (fun a c => a * 10 + (c.toNat - 48)) 0

/-- Octal value of a digit string. -/
def octalToNat (cs : List Char) : Nat :=
  cs.foldl (fun a c => a * 8 + (c.toNat - 48)) 0

/-- The largest 64-bit signed integer, the bound of `strconv.ParseInt`. -/
def maxInt64 : Nat := 9223372036854775807

/-- `cast.ToInt` as invoked on the strings extracted by `refresh`:
`strconv.ParseInt(s, 0, 0)` with 0 on any failure.  Base 0 treats a leading
zero as octal; non-numeric and out-of-range input yields 0. -/
def toIntGo (cs : List Char) : Int :=
  if cs.isEmpty || !cs.all isDigitC then 0
  else if cs == ['0'] then 0
  else if cs.headD ' ' == '0' then
    if cs.all (fun c => '0' ≤ c && c ≤ '7') then
      if octalToNat cs ≤ maxInt64 then (octalToNat cs : Int) else 0
    else 0
  else if digitsToNat cs ≤ maxInt64 then (digitsToNat cs : Int) else 0

/-- `strings.Split(s, ":")[1]` on a matched line. -/
def splitColon1 (cs : List Char) : List Char := (splitChar ':' cs).getD 1 []

/-- `strings.Split(field, "=")[1]`. -/
def splitEq1 (cs : List Char) : List Char := (splitChar '=' cs).getD 1 []

/-- The nested replica record built from a matched `slaveN:...` line: the
loop over its comma-separated fields keeps `ip=`, `port=` and `offset=`. -/
def parseReplica (fields : List (List Char)) : replica :=
  fields.foldl
    (fun r f =>
      if startsWithL "ip=".data f then
        { r with address := { r.address with host := String.mk (splitEq1 f) } }
      else if startsWithL "port=".data f then
        { r with address := { r.address with port := String.mk (splitEq1 f) } }
      else if startsWithL "offset=".data f then
        { r with replicationOffset := toIntGo (splitEq1 f) }
      else r)
    {}

/-- One iteration of the attribute switch of `refresh` for one matched and
trimmed line, in the source's case order. -/
def refreshStep (i : Instance) (s : List Char) : Instance :=
  if i.role == RoleMaster && startsWithL connectedReplicas.data s then
    { i with connectedReplicas := toIntGo (splitColon1 s) }
  else if i.role == RoleMaster && startsWithL masterReplOffset.data s then
    { i with replicationOffset := toIntGo (splitColon1 s) }
  else if i.role == RoleMaster && startsWithL "slave".data s then
    { i with replicas := i.replicas ++ [parseReplica (splitChar ',' (splitColon1 s))] }
  else if i.role == RoleReplica && startsWithL replicaPriority.data s then
    { i with replicaPriority := toIntGo (splitColon1 s) }
  else if i.role == RoleReplica && startsWithL replicationOffset.data s then
    { i with replicationOffset := toIntGo (splitColon1 s) }
  else if i.role == RoleReplica && startsWithL masterHost.data s then
    { i with masterHost := String.mk (splitColon1 s) }
  else if i.role == RoleReplica && startsWithL masterLinkStatus.data s then
    { i with masterLinkStatus := String.mk (splitColon1 s) }
  else if i.role == RoleReplica && startsWithL masterPort.data s then
    { i with masterPort := String.mk (splitColon1 s) }
  else i

/-- `refresh` parses the instance info and updates the fields: decide the
role from the literal role markers — an error if neither is present — and
fold the attribute switch over all matched lines. -/
def refresh (i : Instance) (info : String) : Except String Instance :=
  if strContains info RoleMaster then
    Except.ok ((parsedLines info).foldl refreshStep { i with role := RoleMaster })
  else if strContains info RoleReplica then
    Except.ok ((parsedLines info).foldl refreshStep { i with role := RoleReplica })
  else
    Except.error "the role is wrong"

/-! ## Engine construction -/

/-- One instance's part of `Refresh`: query `INFO replication` — the answer
is the oracle `infoOf`, `none` meaning a network error — and parse it. -/
def refreshInstance (infoOf : Address → Option String) (i : Instance) :
    Except String Instance :=
  match infoOf i.address with
  | none => Except.error "getting info replication failed"
  | some info => refresh i info

/-- `Refresh` queries every instance and collects all errors: it fails if
any instance failed and otherwise yields the refreshed records in order. -/
def refreshAll (infoOf : Address → Option String) : instances → Except String instances
  | [] => Except.ok []
  | i :: rest =>
    match refreshInstance infoOf i, refreshAll infoOf rest with
    | Except.ok j, Except.ok js => Except.ok (j :: js)
    | Except.error e, Except.ok _ => Except.error e
    | Except.ok _, Except.error e => Except.error e
    | Except.error e, Except.error f => Except.error (e ++ ";" ++ f)

/-- `New` creates the replication engine.  A connection is opened to every
address; instances failing `ping` are closed immediately and dropped; if
fewer than `MinimumFailoverSize` remain, `Disconnect` closes every retained
connection and construction fails; otherwise the initial `Refresh` runs,
whose failure also closes every retained connection.  The second component
lists every address whose connection was closed, in order. -/
def New (pingOk : Address → Bool) (infoOf : Address → Option String)
    (addresses : List Address) : Except String instances × List Address :=
  let retained : instances :=
    (addresses.filter pingOk).map (fun a => { zeroInstance with address := a })
  let pingClosed := addresses.filter (fun a => !pingOk a)
  if retained.length < MinimumFailoverSize then
    (Except.error "minimum replication size is not met",
     pingClosed ++ retained.map (fun i => i.address))
  else
    match refreshAll infoOf retained with
    | Except.error e => (Except.error e, pingClosed ++ retained.map (fun i => i.address))
    | Except.ok refreshed => (Except.ok refreshed, pingClosed)

/-! ## Configuration-map generation (controllers package) -/

/-- The deny-list of configuration directives controlled by the operator
(`excludedConfigDirectives`, a Go set). -/
def excludedConfigDirectives : List String :=
  ["include", "bind", "protected-mode", "port", "daemonize", "dir",
   "replica-announce-ip", "replica-announce-port", "replicaof",
   "masterauth", "requirepass", "rename-command"]

/-- The working directory constant (`dataMountPath`). -/
def workingDir : String := "/data"

/-- The mount path of the credential file. -/
def secretMountPath : String := "/secret/auth.conf"

/-- The part of the Redis cluster object read by `generateConfigMap`: name,
free-form configuration pairs (a Go `map[string]string`, whose iteration
order is arbitrary — modelled as a list in some order), and whether a
password secret is referenced. -/
structure RedisResource where
  name : String
  config : List (String × String)
  hasSecretRef : Bool

/-- The newline-terminated chunks written by `generateConfigMap` into the
configuration body, flattened to single lines, in order: the generated-by
comment and the `dir` directive (one Fprintf emitting both), the optional
credential `include`, the user pairs with deny-listed keys omitted, and the
trailing `replicaof` for a non-zero master address (the port is the
compile-time constant 6379). -/
def configMapLines (r : RedisResource) (master : Address) : List String :=
  ["# Generated by redis-operator for redis.k8s.amaiz.com/" ++ r.name,
   "dir " ++ workingDir] ++
  (if r.hasSecretRef then ["include " ++ secretMountPath] else []) ++
  (r.config.filterMap
    (fun kv => if excludedConfigDirectives.contains kv.1 then none
               else some (kv.1 ++ " " ++ kv.2))) ++
  (if master ≠ emptyAddress then ["replicaof " ++ master.host ++ " 6379"] else [])

/-- Concatenation of newline-terminated lines, as the `strings.Builder`
accumulates the Fprintf calls. -/
def concatLines : List String → String
  | [] => ""
  | l :: ls => l ++ "\n" ++ concatLines ls

/-- The full configuration body generated by `generateConfigMap`. -/
def generateConfigMap (r : RedisResource) (master : Address) : String :=
  concatLines (configMapLines r master)

/-- The lines of a body: split at every newline. -/
def linesOf (s : String) : List String :=
  (splitChar '\n' s.data).map (fun cs => String.mk cs)

/-- The directive named by a configuration line: its first space-separated
token. -/
def firstToken (s : String) : String :=
  String.mk (s.data.takeWhile (fun c => !(c == ' ')))

/-! ## The containment comparator (spec-modelled)

Modelled from the spec: the implementation of `deepContains` is not among
the sources at hand — only its tests are — so the comparator is modelled
from the specification's description ("a recursive routine with a
type-discrimination head and an empty-value predicate"; numeric, string and
boolean equality; sequences of the same length element-wise; mappings by
key lookup with extra keys allowed in the current object; pointers compared
through their targets; zero-valued desired fields unconstrained; two
differently typed operands never contain one another).  The behaviour on
function values and on untyped nil operands follows the expectations of
`Test_deepContains` (`composite-Tinterface-deepFunc-false` and the two
`nil` rows). -/

/-- Dynamic Go types as seen by the comparator.  Array types carry their
length, compound types their element types, struct types their name. -/
inductive GoType : Type where
  | tBool : GoType
  | tInt : GoType
  | tUint : GoType
  | tString : GoType
  | tFunc : GoType
  | tStruct : String → GoType
  | tArray : Nat → GoType → GoType
  | tSlice : GoType → GoType
  | tMap : GoType → GoType → GoType
  | tPtr : GoType → GoType
deriving DecidableEq, Repr

mutual
/-- The reflected view of a Go value: scalars, a (non-nil) function, a
struct with its exported fields (unexported fields are ignored by the
comparator and are not represented), arrays, slices, maps and pointers
with their element types, and the untyped nil interface value. -/
inductive GoValue : Type where
  | vNil : GoValue
  | vBool : Bool → GoValue
  | vInt : Int → GoValue
  | vUint : Nat → GoValue
  | vString : String → GoValue
  | vFunc : GoValue
  | vStruct : String → GoFields → GoValue
  | vArray : GoType → GoList → GoValue
  | vSlice : GoType → GoList → GoValue
  | vMap : GoType → GoType → GoPairs → GoValue
  | vPtr : GoType → GoRef → GoValue
/-- A possibly-nil pointer target. -/
inductive GoRef : Type where
  | null : GoRef
  | ref : GoValue → GoRef
/-- A sequence of values. -/
inductive GoList : Type where
  | nil : GoList
  | cons : GoValue → GoList → GoList
/-- Named struct fields. -/
inductive GoFields : Type where
  | nil : GoFields
  | cons : String → GoValue → GoFields → GoFields
/-- Map entries. -/
inductive GoPairs : Type where
  | nil : GoPairs
  | cons : GoValue → GoValue → GoPairs → GoPairs
end

/-- Length of a value sequence. -/
def golLength : GoList → Nat
  | .nil => 0
  | .cons _ rest => golLength rest + 1

/-- The dynamic type of a value; the untyped nil has none. -/
def typeOf : GoValue → Option GoType
  | .vNil => none
  | .vBool _ => some .tBool
  | .vInt _ => some .tInt
  | .vUint _ => some .tUint
  | .vString _ => some .tString
  | .vFunc => some .tFunc
  | .vStruct n _ => some (.tStruct n)
  | .vArray t es => some (.tArray (golLength es) t)
  | .vSlice t _ => some (.tSlice t)
  | .vMap kt vt _ => some (.tMap kt vt)
  | .vPtr t _ => some (.tPtr t)

/-- The empty-value predicate of the spec: empty string, zero number, false
boolean, nil handle, zero-length sequence or mapping; a struct is never
empty as a whole (`Test_isEmptyValue`: the final catch-all is false). -/
def isEmptyValue : GoValue → Bool
  | .vNil => true
  | .vBool b => b == false
  | .vInt n => n == 0
  | .vUint n => n == 0
  | .vString s => s == ""
  | .vFunc => false
  | .vStruct _ _ => false
  | .vArray _ .nil => true
  | .vArray _ (.cons _ _) => false
  | .vSlice _ .nil => true
  | .vSlice _ (.cons _ _) => false
  | .vMap _ _ .nil => true
  | .vMap _ _ (.cons _ _ _) => false
  | .vPtr _ .null => true
  | .vPtr _ (.ref _) => false

mutual
/-- Structural equality of reflected values, used for map-key lookup (Go
map keys compare by value equality). -/
def eqv : GoValue → GoValue → Bool
  | .vNil, .vNil => true
  | .vBool a, .vBool b => a == b
  | .vInt a, .vInt b => a == b
  | .vUint a, .vUint b => a == b
  | .vString a, .vString b => a == b
  | .vFunc, .vFunc => true
  | .vStruct n1 f1, .vStruct n2 f2 => n1 == n2 && eqvFields f1 f2
  | .vArray t1 e1, .vArray t2 e2 => t1 == t2 && eqvList e1 e2
  | .vSlice t1 e1, .vSlice t2 e2 => t1 == t2 && eqvList e1 e2
  | .vMap k1 w1 p1, .vMap k2 w2 p2 => k1 == k2 && w1 == w2 && eqvPairs p1 p2
  | .vPtr t1 .null, .vPtr t2 .null => t1 == t2
  | .vPtr t1 (.ref a), .vPtr t2 (.ref b) => t1 == t2 && eqv a b
  | _, _ => false
termination_by structural a _ => a

/-- Field-list equality. -/
def eqvFields : GoFields → GoFields → Bool
  | .nil, .nil => true
  | .cons n1 v1 r1, .cons n2 v2 r2 => n1 == n2 && eqv v1 v2 && eqvFields r1 r2
  | _, _ => false
termination_by structural a _ => a

/-- Sequence equality. -/
def eqvList : GoList → GoList → Bool
  | .nil, .nil => true
  | .cons v1 r1, .cons v2 r2 => eqv v1 v2 && eqvList r1 r2
  | _, _ => false
termination_by structural a _ => a

/-- Entry-list equality. -/
def eqvPairs : GoPairs → GoPairs → Bool
  | .nil, .nil => true
  | .cons k1 v1 r1, .cons k2 v2 r2 => eqv k1 k2 && eqv v1 v2 && eqvPairs r1 r2
  | _, _ => false
termination_by structural a _ => a
end

/-- Map lookup by key equality; returns the first matching entry's value. -/
def findVal (k : GoValue) : GoPairs → Option GoValue
  | .nil => none
  | .cons k' v rest => if eqv k' k then some v else findVal k rest

mutual
/-- The recursive body of the comparator: a desired nil interface slot is
unconstrained; a nil current contains nothing non-nil; otherwise the type
check comes first, then the empty-value escape for the desired side, then
the per-kind rules.  Non-nil functions never contain one another. -/
def deepContainsV : GoValue → GoValue → Bool
  | _, .vNil => true
  | .vNil, _ => false
  | x, y =>
    if typeOf x ≠ typeOf y then false
    else if isEmptyValue y then true
    else
      match x, y with
      | .vBool a, .vBool b => a == b
      | .vInt a, .vInt b => a == b
      | .vUint a, .vUint b => a == b
      | .vString a, .vString b => a == b
      | .vFunc, .vFunc => false
      | .vStruct _ fx, .vStruct _ fy => containsFields fx fy
      | .vArray _ ex, .vArray _ ey => containsElems ex ey
      | .vSlice _ ex, .vSlice _ ey =>
          golLength ex == golLength ey && containsElems ex ey
      | .vMap _ _ px, .vMap _ _ py => containsPairs px py
      | .vPtr _ (.ref a), .vPtr _ (.ref b) => deepContainsV a b
      | _, _ => false
termination_by structural _ y => y

/-- Field-wise containment: same fields in order, values contained. -/
def containsFields : GoFields → GoFields → Bool
  | .nil, .nil => true
  | .cons nx vx xs, .cons ny vy ys =>
      nx == ny && deepContainsV vx vy && containsFields xs ys
  | _, _ => false
termination_by structural _ ys => ys

/-- Element-wise containment of equally long sequences. -/
def containsElems : GoList → GoList → Bool
  | .nil, .nil => true
  | .cons x xs, .cons y ys => deepContainsV x y && containsElems xs ys
  | _, _ => false
termination_by structural _ ys => ys

/-- Mapping containment: every desired entry's key is present in the
current mapping and its value is contained; the current side may have
extra keys. -/
def containsPairs : GoPairs → GoPairs → Bool
  | _, .nil => true
  | px, .cons k vy py =>
      (match findVal k px with
       | some vx => deepContainsV vx vy
       | none => false) && containsPairs px py
termination_by structural _ py => py
end

/-- The containment comparator: an untyped nil on either side (an invalid
reflected value) yields false; otherwise the recursive body decides. -/
def deepContains (x y : GoValue) : Bool :=
  match x, y with
  | .vNil, _ => false
  | _, .vNil => false
  | x, y => deepContainsV x y

/-- Whether a key matches no entry of the list, in either orientation. -/
def keyAbsent (k : GoValue) : GoPairs → Bool
  | .nil => true
  | .cons k' _ rest => !(eqv k k') && !(eqv k' k) && keyAbsent k rest

/-- Pairwise-distinct map keys, as Go maps guarantee. -/
def keysDistinct : GoPairs → Bool
  | .nil => true
  | .cons k _ rest => keyAbsent k rest && keysDistinct rest

mutual
/-- Values in the reflexivity domain of the comparator: no function value
anywhere, and every mapping has pairwise-distinct keys.  Every value built
from an actual Go object without functions satisfies this. -/
def goodValue : GoValue → Bool
  | .vNil => true
  | .vBool _ => true
  | .vInt _ => true
  | .vUint _ => true
  | .vString _ => true
  | .vFunc => false
  | .vStruct _ fs => goodFields fs
  | .vArray _ es => goodList es
  | .vSlice _ es => goodList es
  | .vMap _ _ ps => keysDistinct ps && goodPairs ps
  | .vPtr _ .null => true
  | .vPtr _ (.ref a) => goodValue a
termination_by structural x => x

/-- Goodness of struct fields. -/
def goodFields : GoFields → Bool
  | .nil => true
  | .cons _ v rest => goodValue v && goodFields rest
termination_by structural f => f

/-- Goodness of sequence elements. -/
def goodList : GoList → Bool
  | .nil => true
  | .cons v rest => goodValue v && goodList rest
termination_by structural l => l

/-- Goodness of map entries. -/
def goodPairs : GoPairs → Bool
  | .nil => true
  | .cons k v rest => goodValue k && goodValue v && goodPairs rest
termination_by structural p => p
end

/-- Membership of an entry in a map-entry list. -/
def pairMemP (k v : GoValue) : GoPairs → Prop
  | .nil => False
  | .cons k' v' rest => (k = k' ∧ v = v') ∨ pairMemP k v rest

/-! ## Sample records used by witnesses and counterexamples -/

/-- Sample address. -/
def addrA : Address := { host := "10.0.0.1", port := "6379" }

/-- Sample address. -/
def addrB : Address := { host := "10.0.0.2", port := "6379" }

/-- Sample address. -/
def addrC : Address := { host := "10.0.0.3", port := "6379" }

/-- A working master advertising one connected replica. -/
def sampleWorkingMaster : Instance :=
  { zeroInstance with
      address := addrA
      role := RoleMaster
      connectedReplicas := 1
      replicas := [{ address := addrB, replicationOffset := 47040 }] }

/-- A viable replica. -/
def sampleReplica : Instance :=
  { zeroInstance with
      address := addrB
      role := RoleReplica
      replicaPriority := 100
      replicationOffset := 47054 }

/-- A standalone master with no connected replicas. -/
def sampleLoneMaster : Instance :=
  { zeroInstance with address := addrC, role := RoleMaster }

/-- A replica record as produced by refreshing the zero record with a body
carrying the replica role marker and a priority line. -/
def sampleRefreshedReplica : Instance :=
  { zeroInstance with role := RoleReplica, replicaPriority := 100 }

/-- The cluster-object fragment of the C8 counterexample: a single
user-supplied configuration pair whose key extends the deny-listed `bind`
directive with an argument. -/
def bindBypassResource : RedisResource :=
  { name := "r", config := [("bind 0.0.0.0", "x")], hasSecretRef := false }

/-- A benign cluster-object fragment. -/
def benignResource : RedisResource :=
  { name := "r", config := [("maxmemory", "100mb")], hasSecretRef := true }

/-- The composite of `Test_deepContains` carrying a function in its
interface slot (`composite-Tinterface-deepFunc-false`), reduced to the
field that decides the comparison. -/
def funcComposite : GoValue :=
  GoValue.vStruct "compositeStruct" (.cons "Tinterface" GoValue.vFunc .nil)

/-- A function-free sample value with a two-entry mapping. -/
def goSampleValue : GoValue :=
  GoValue.vStruct "basicStruct" (.cons "Tstring" (GoValue.vString "o")
    (.cons "Tmap" (GoValue.vMap .tString .tInt
      (.cons (GoValue.vString "a") (GoValue.vInt 1)
        (.cons (GoValue.vString "b") (GoValue.vInt 2) .nil))) .nil))

/-- Sample struct values forming a containment chain. -/
def bOne : GoValue :=
  GoValue.vStruct "b" (.cons "Tstring" (GoValue.vString "o")
    (.cons "Tint" (GoValue.vInt 1) .nil))

/-- Contained in `bOne`: the int field is zero-valued. -/
def bTwo : GoValue :=
  GoValue.vStruct "b" (.cons "Tstring" (GoValue.vString "o")
    (.cons "Tint" (GoValue.vInt 0) .nil))

/-- Contained in `bTwo`: all fields zero-valued. -/
def bThree : GoValue :=
  GoValue.vStruct "b" (.cons "Tstring" (GoValue.vString "")
    (.cons "Tint" (GoValue.vInt 0) .nil))

/-! ## Theorems -/

/-- `workingMasterB` decides the first-branch property of the claim: role is
PRIMARY in the sense of the source test (not SECONDARY) and the
connected-replica count is positive. -/
theorem workingMasterB_iff (i : Instance) :
    workingMasterB i = true ↔ (i.role ≠ RoleReplica ∧ 0 < i.connectedReplicas) := by
  simp [workingMasterB]

/-- `viableReplicaB` decides the second-branch property: role SECONDARY with
nonzero priority. -/
theorem viableReplicaB_iff (i : Instance) :
    viableReplicaB i = true ↔ (i.role = RoleReplica ∧ i.replicaPriority ≠ 0) := by
  simp [viableReplicaB]

/-- A list containing an element satisfying `p` splits at the first such
element, and `find?` returns it. -/
theorem find?_first {α : Type} (p : α → Bool) :
    ∀ l : List α, (∃ x ∈ l, p x = true) →
      ∃ pre x post, l = pre ++ x :: post ∧ p x = true ∧
        (∀ y ∈ pre, p y = false) ∧ l.find? p = some x := by
  intro l
  induction l with
  | nil => rintro ⟨x, hx, _⟩; cases hx
  | cons a l ih =>
      intro h
      by_cases ha : p a = true
      · exact ⟨[], a, l, rfl, ha, by simp, by simp [List.find?_cons_of_pos _ ha]⟩
      · have ha' : p a = false := by simpa using ha
        obtain ⟨x, hx, hpx⟩ := h
        rcases List.mem_cons.mp hx with rfl | hxl
        · exact absurd hpx ha
        · obtain ⟨pre, x, post, hsplit, hpx, hpre, hfind⟩ := ih ⟨x, hxl, hpx⟩
          refine ⟨a :: pre, x, post, by simp [hsplit], hpx, ?_, ?_⟩
          · intro y hy
            rcases List.mem_cons.mp hy with rfl | hy'
            · exact ha'
            · exact hpre y hy'
          · rw [List.find?_cons_of_neg _ ha]; exact hfind

/-- Claim C1: `selectMaster` follows the four-branch rule.  (1) If some
instance has role PRIMARY — in the sense of the source's test, i.e. not
SECONDARY — with connected-replica count above zero, the first such instance
is returned.  (2) Otherwise, if some instance has role SECONDARY with
nonzero priority, `nil` is returned (master lost).  (3) Otherwise a
non-empty set yields its first element.  (4) The empty set yields `nil`. -/
theorem selectMaster_four_branch_rule (ins : instances) :
    ((∃ i ∈ ins, i.role ≠ RoleReplica ∧ 0 < i.connectedReplicas) →
      ∃ pre i post, ins = pre ++ i :: post ∧
        (i.role ≠ RoleReplica ∧ 0 < i.connectedReplicas) ∧
        (∀ j ∈ pre, ¬(j.role ≠ RoleReplica ∧ 0 < j.connectedReplicas)) ∧
        selectMaster ins = some i) ∧
    ((∀ i ∈ ins, ¬(i.role ≠ RoleReplica ∧ 0 < i.connectedReplicas)) →
      (∃ i ∈ ins, i.role = RoleReplica ∧ i.replicaPriority ≠ 0) →
      selectMaster ins = none) ∧
    ((∀ i ∈ ins, ¬(i.role ≠ RoleReplica ∧ 0 < i.connectedReplicas)) →
      (∀ i ∈ ins, ¬(i.role = RoleReplica ∧ i.replicaPriority ≠ 0)) →
      selectMaster ins = ins.head?) ∧
    (ins = [] → selectMaster ins = none) := by
  have hnone : (∀ i ∈ ins, ¬(i.role ≠ RoleReplica ∧ 0 < i.connectedReplicas)) →
      ins.find? workingMasterB = none := by
    intro h
    apply List.find?_eq_none.mpr
    intro x hx
    simpa [workingMasterB_iff] using h x hx
  refine ⟨?_, ?_, ?_, ?_⟩
  · intro h
    obtain ⟨pre, i, post, hsplit, hpi, hpre, hfind⟩ :=
      find?_first workingMasterB ins
        (by obtain ⟨i, hi, hp⟩ := h; exact ⟨i, hi, (workingMasterB_iff i).mpr hp⟩)
    refine ⟨pre, i, post, hsplit, (workingMasterB_iff i).mp hpi, ?_, ?_⟩
    · intro j hj hcontra
      have := (workingMasterB_iff j).mpr hcontra
      simp [hpre j hj] at this
    · simp [selectMaster, hfind]
  · intro h hex
    have hany : ins.any viableReplicaB = true := by
      obtain ⟨i, hi, hp⟩ := hex
      exact List.any_eq_true.mpr ⟨i, hi, (viableReplicaB_iff i).mpr hp⟩
    simp [selectMaster, hnone h, hany]
  · intro h h2
    have hany : ins.any viableReplicaB = false := by
      rw [List.any_eq_false]
      intro x hx hcontra
      exact h2 x hx ((viableReplicaB_iff x).mp hcontra)
    simp [selectMaster, hnone h, hany]
  · rintro rfl; rfl

/-- Witness for C1: the four-branch rule evaluated on concrete sets.  A set
with a working master yields the split guaranteed by branch one; a set of
dead masters plus a viable replica yields `nil` by branch two. -/
theorem selectMaster_four_branch_rule_witness :
    (∃ pre i post,
      ([sampleLoneMaster, sampleWorkingMaster, sampleReplica] : instances) =
        pre ++ i :: post ∧
      (i.role ≠ RoleReplica ∧ 0 < i.connectedReplicas) ∧
      (∀ j ∈ pre, ¬(j.role ≠ RoleReplica ∧ 0 < j.connectedReplicas)) ∧
      selectMaster [sampleLoneMaster, sampleWorkingMaster, sampleReplica] = some i) ∧
    selectMaster [sampleLoneMaster, sampleReplica] = none :=
  ⟨(selectMaster_four_branch_rule [sampleLoneMaster, sampleWorkingMaster, sampleReplica]).1
      (by decide),
   (selectMaster_four_branch_rule [sampleLoneMaster, sampleReplica]).2.1
      (by decide) (by decide)⟩

/-- The candidate order as stated by the specification: strictly lower
priority wins, ties are broken by strictly higher replication offset. -/
theorem Less_iff (i j : Instance) :
    Less i j = true ↔
      (i.replicaPriority < j.replicaPriority ∨
       (i.replicaPriority = j.replicaPriority ∧
        j.replicationOffset < i.replicationOffset)) := by
  by_cases h : i.replicaPriority = j.replicaPriority <;> simp [Less, h]

/-- Negated form of `Less_iff`. -/
theorem Less_eq_false_iff (i j : Instance) :
    Less i j = false ↔
      ¬(i.replicaPriority < j.replicaPriority ∨
        (i.replicaPriority = j.replicaPriority ∧
         j.replicationOffset < i.replicationOffset)) := by
  rw [← Less_iff]
  cases hL : Less i j <;> simp

/-- The complement relation used to realize `sort.Sort` is transitive. -/
theorem leB_trans (a b c : Instance) (h1 : (!Less b a) = true)
    (h2 : (!Less c b) = true) : (!Less c a) = true := by
  rw [Bool.not_eq_true', Less_eq_false_iff] at h1 h2 ⊢
  omega

/-- The complement relation used to realize `sort.Sort` is total. -/
theorem leB_total (a b : Instance) : ((!Less b a) || (!Less a b)) = true := by
  rw [Bool.or_eq_true, Bool.not_eq_true', Bool.not_eq_true',
    Less_eq_false_iff, Less_eq_false_iff]
  omega

/-- The head of the sorted candidate sequence is minimal: no element of the
original sequence is `Less` than it. -/
theorem sortInstances_head_min (ins : instances) (head : Instance)
    (rest : instances) (h : sortInstances ins = head :: rest) :
    ∀ c ∈ ins, Less c head = false := by
  have hp := @List.sorted_mergeSort Instance (fun a b => !Less b a)
    leB_trans leB_total ins
  rw [sortInstances] at h
  rw [h] at hp
  intro c hc
  have hc' : c ∈ head :: rest := by
    rw [← h]
    exact List.mem_mergeSort.mpr hc
  rcases List.mem_cons.mp hc' with rfl | hcr
  · rw [Less_eq_false_iff]; omega
  · have := (List.pairwise_cons.mp hp).1 c hcr
    simpa using this

/-- Membership in the sorted sequence is membership in the original. -/
theorem sortInstances_mem (ins : instances) (i : Instance) :
    i ∈ sortInstances ins ↔ i ∈ ins := by
  rw [sortInstances]; exact List.mem_mergeSort

/-- Claim C2: promotion candidates are exactly the instances with role
SECONDARY and nonzero priority; the order ranks `i` before `j` iff `i` has
strictly lower priority, or equal priority and strictly higher replication
offset; and the promoted instance is the first candidate under this order
(the head of the sorted candidates, minimal with respect to `Less`). -/
theorem promotion_candidates_and_order :
    (∀ (ins : instances) (i : Instance), i ∈ promotionCandidates ins ↔
       (i ∈ ins ∧ i.role = RoleReplica ∧ i.replicaPriority ≠ 0)) ∧
    (∀ i j : Instance, Less i j = true ↔
       (i.replicaPriority < j.replicaPriority ∨
        (i.replicaPriority = j.replicaPriority ∧
         j.replicationOffset < i.replicationOffset))) ∧
    (∀ (poll : Instance → Option Instance) (ins : instances)
       (head : Instance) (rest : instances),
       sortInstances (promotionCandidates ins) = head :: rest →
       promoteReplicaToMaster poll (promotionCandidates ins) =
         ([replicaOf head emptyAddress], poll head) ∧
       head ∈ promotionCandidates ins ∧
       ∀ c ∈ promotionCandidates ins, Less c head = false) := by
  refine ⟨?_, Less_iff, ?_⟩
  · intro ins i
    rw [promotionCandidates, List.mem_filter, viableReplicaB_iff]
  · intro poll ins head rest h
    refine ⟨?_, ?_, sortInstances_head_min _ _ _ h⟩
    · rw [promoteReplicaToMaster, h]
    · rw [← sortInstances_mem, h]
      exact List.mem_cons_self head rest

/-- Witness for C2: on a concrete set whose only candidate is the sample
replica, promotion issues the `NO ONE` reassign to it, and it is a
candidate. -/
theorem promotion_candidates_and_order_witness :
    promoteReplicaToMaster (fun _ => none)
        (promotionCandidates [sampleLoneMaster, sampleReplica]) =
      ([replicaOf sampleReplica emptyAddress], none) ∧
    sampleReplica ∈ promotionCandidates [sampleLoneMaster, sampleReplica] := by
  have hpc : promotionCandidates [sampleLoneMaster, sampleReplica] =
      [sampleReplica] := by decide
  have hsort : sortInstances (promotionCandidates [sampleLoneMaster, sampleReplica]) =
      sampleReplica :: [] := by
    rw [hpc, sortInstances, List.mergeSort_singleton]
  have h := promotion_candidates_and_order.2.2 (fun _ => none)
    [sampleLoneMaster, sampleReplica] sampleReplica [] hsort
  exact ⟨h.1, h.2.1⟩

/-- The receiver of a `replicaOf` command is the instance it is sent to. -/
theorem replicaOf_receiver (i : Instance) (m : Address) :
    (replicaOf i m).receiver = i.address := by
  rw [replicaOf]; split <;> rfl

/-- The target of a `replicaOf` command is the given master address when
that address is not the zero address. -/
theorem replicaOf_target (i : Instance) (m : Address) (h : m ≠ emptyAddress) :
    (replicaOf i m).target = m := by
  rw [replicaOf, if_neg h]

/-- Characterization of the orphan commands: an address receives a command
exactly when some instance carries it, it differs from the master's address,
and it is absent from the master's advertised replica list. -/
theorem orphan_commands_iff (ins : instances) (master : Instance) (a : Address) :
    (∃ c ∈ reconfigureAsReplicasOf (orphanedReplicas ins master) master.address,
       c.receiver = a) ↔
    (∃ i ∈ ins, i.address = a ∧ a ≠ master.address ∧
       a ∉ connectedAddresses master) := by
  constructor
  · rintro ⟨c, hc, hrecv⟩
    obtain ⟨i, hi, rfl⟩ := List.mem_map.mp hc
    obtain ⟨hins, hb⟩ := List.mem_filter.mp hi
    have hb' : i.address ≠ master.address ∧ i.address ∉ connectedAddresses master := by
      simpa using hb
    rw [replicaOf_receiver] at hrecv
    subst hrecv
    exact ⟨i, hins, rfl, hb'.1, hb'.2⟩
  · rintro ⟨i, hi, rfl, hne, hnc⟩
    refine ⟨replicaOf i master.address, List.mem_map.mpr ⟨i, ?_, rfl⟩,
      replicaOf_receiver i master.address⟩
    apply List.mem_filter.mpr
    refine ⟨hi, ?_⟩
    simp [hne, hnc]

/-- A set with a selected master is non-empty, so the length guard of
`Reconfigure` is off. -/
theorem selectMaster_some_ne_nil (ins : instances) (master : Instance)
    (h : selectMaster ins = some master) : (ins.length == 0) = false := by
  cases ins with
  | nil => simp [selectMaster] at h
  | cons a l => rfl

/-- Claim C3: `Reconfigure` on the empty set succeeds with no command; with
a selected master it issues exactly the orphan commands; with a freshly
promoted master it issues the promotion command followed by exactly the
orphan commands; and the orphan commands go precisely to the addresses that
differ from the primary's and are absent from its advertised replica list
(with target the primary's address whenever that address is non-zero). -/
theorem reconfigure_orphan_commands :
    (∀ poll, Reconfigure poll [] = ([], true)) ∧
    (∀ (poll : Instance → Option Instance) (ins : instances) (master : Instance),
       selectMaster ins = some master →
       Reconfigure poll ins =
         (reconfigureAsReplicasOf (orphanedReplicas ins master) master.address, true)) ∧
    (∀ (poll : Instance → Option Instance) (ins : instances)
       (head : Instance) (rest : instances) (master : Instance),
       selectMaster ins = none → ins ≠ [] →
       sortInstances (promotionCandidates ins) = head :: rest →
       poll head = some master →
       Reconfigure poll ins =
         (replicaOf head emptyAddress ::
            reconfigureAsReplicasOf (orphanedReplicas ins master) master.address, true)) ∧
    (∀ (ins : instances) (master : Instance) (a : Address),
       (∃ c ∈ reconfigureAsReplicasOf (orphanedReplicas ins master) master.address,
          c.receiver = a) ↔
       (∃ i ∈ ins, i.address = a ∧ a ≠ master.address ∧
          a ∉ connectedAddresses master)) ∧
    (∀ (ins : instances) (master : Instance), master.address ≠ emptyAddress →
       ∀ c ∈ reconfigureAsReplicasOf (orphanedReplicas ins master) master.address,
         c.target = master.address) := by
  refine ⟨fun poll => rfl, ?_, ?_, orphan_commands_iff, ?_⟩
  · intro poll ins master h
    rw [Reconfigure, if_neg (by simp [selectMaster_some_ne_nil ins master h]), h]
  · intro poll ins head rest master hsel hne hsort hpoll
    have hlen : (ins.length == 0) = false := by
      cases ins with
      | nil => exact absurd rfl hne
      | cons a l => rfl
    rw [Reconfigure, if_neg (by simp [hlen]), hsel, promoteReplicaToMaster, hsort]
    simp [hpoll]
  · intro ins master h c hc
    obtain ⟨i, _, rfl⟩ := List.mem_map.mp hc
    exact replicaOf_target i master.address h

/-- Witness for C3: on a concrete set with a working master, `Reconfigure`
issues exactly the orphan commands and succeeds. -/
theorem reconfigure_orphan_commands_witness :
    Reconfigure (fun _ => none) [sampleWorkingMaster, sampleReplica, sampleLoneMaster] =
      (reconfigureAsReplicasOf
        (orphanedReplicas [sampleWorkingMaster, sampleReplica, sampleLoneMaster]
          sampleWorkingMaster)
        sampleWorkingMaster.address, true) :=
  reconfigure_orphan_commands.2.1 (fun _ => none)
    [sampleWorkingMaster, sampleReplica, sampleLoneMaster] sampleWorkingMaster
    (by decide)

/-- Counterexample for claim C6: the claim states that a set of size below
`MinimumFailoverSize` never receives a reassignment command from
`Reconfigure`; but a singleton set whose only member is a viable replica
takes the promotion path, and the promotion itself issues the `NO ONE`
reassign to that member. -/
theorem reconfigure_singleton_promotion_counterexample :
    (Reconfigure (fun _ => none) [sampleReplica]).1 =
      [{ receiver := addrB, target := noOne }] ∧
    ([sampleReplica] : instances).length < MinimumFailoverSize := by
  constructor
  · have hpc : promotionCandidates [sampleReplica] = [sampleReplica] := by decide
    have hsort : sortInstances (promotionCandidates [sampleReplica]) =
        sampleReplica :: [] := by
      rw [hpc, sortInstances, List.mergeSort_singleton]
    have hsel : selectMaster [sampleReplica] = none := by decide
    rw [Reconfigure, if_neg (by decide), hsel, promoteReplicaToMaster, hsort]
    rfl
  · decide

/-- Claim C10: whenever `Reconfigure` takes the promotion path — that is,
`selectMaster` returned nil on a non-empty set — the filtered candidate
sequence is non-empty, and so is its sorted permutation; hence the access
`ins[0]` inside `promoteReplicaToMaster` is within bounds there. -/
theorem promotion_path_candidates_nonempty (ins : instances) (hne : ins ≠ [])
    (hsel : selectMaster ins = none) :
    promotionCandidates ins ≠ [] ∧ sortInstances (promotionCandidates ins) ≠ [] := by
  have hany : ins.any viableReplicaB = true := by
    rw [selectMaster] at hsel
    rcases hfind : ins.find? workingMasterB with _ | i
    · rw [hfind] at hsel
      by_contra hc
      have hc' : ins.any viableReplicaB = false := by
        cases h : ins.any viableReplicaB
        · rfl
        · exact absurd h hc
      rw [if_neg (by simp [hc'])] at hsel
      cases ins with
      | nil => exact hne rfl
      | cons a l => simp at hsel
    · rw [hfind] at hsel; cases hsel
  obtain ⟨i, hi, hp⟩ := List.any_eq_true.mp hany
  have hmem : i ∈ promotionCandidates ins := List.mem_filter.mpr ⟨hi, hp⟩
  have h1 : promotionCandidates ins ≠ [] := List.ne_nil_of_mem hmem
  refine ⟨h1, ?_⟩
  intro hnil
  have := @List.length_mergeSort Instance (fun a b => !Less b a)
    (promotionCandidates ins)
  rw [sortInstances] at hnil
  rw [hnil] at this
  exact h1 (List.length_eq_zero.mp this.symm)

/-- Witness for C10: a dead master plus a viable replica makes
`selectMaster` return nil on a non-empty set, and the candidate sequence is
indeed non-empty. -/
theorem promotion_path_candidates_nonempty_witness :
    promotionCandidates [sampleLoneMaster, sampleReplica] ≠ [] ∧
    sortInstances (promotionCandidates [sampleLoneMaster, sampleReplica]) ≠ [] :=
  promotion_path_candidates_nonempty [sampleLoneMaster, sampleReplica]
    (by decide) (by decide)

/-- The attribute switch never changes the role. -/
theorem refreshStep_role (i : Instance) (s : List Char) :
    (refreshStep i s).role = i.role := by
  unfold refreshStep
  repeat' split
  all_goals rfl

/-- The attribute switch never changes the address. -/
theorem refreshStep_address (i : Instance) (s : List Char) :
    (refreshStep i s).address = i.address := by
  unfold refreshStep
  repeat' split
  all_goals rfl

/-- On a master record the attribute switch leaves every secondary-only
field unchanged. -/
theorem refreshStep_master (i : Instance) (s : List Char) (h : i.role = RoleMaster) :
    (refreshStep i s).replicaPriority = i.replicaPriority ∧
    (refreshStep i s).masterHost = i.masterHost ∧
    (refreshStep i s).masterPort = i.masterPort ∧
    (refreshStep i s).masterLinkStatus = i.masterLinkStatus := by
  have hne : (i.role == RoleReplica) = false := by
    simp [h, RoleMaster, RoleReplica]
  unfold refreshStep
  simp only [hne, Bool.false_and, if_false]
  repeat' split
  all_goals simp_all

/-- On a replica record the attribute switch leaves every primary-only
field unchanged. -/
theorem refreshStep_replica (i : Instance) (s : List Char) (h : i.role = RoleReplica) :
    (refreshStep i s).connectedReplicas = i.connectedReplicas ∧
    (refreshStep i s).replicas = i.replicas := by
  have hne : (i.role == RoleMaster) = false := by
    simp [h, RoleMaster, RoleReplica]
  unfold refreshStep
  simp only [hne, Bool.false_and, if_false]
  repeat' split
  all_goals simp_all

/-- Role preservation through the whole fold. -/
theorem foldl_refreshStep_role : ∀ (ls : List (List Char)) (i : Instance),
    (ls.foldl refreshStep i).role = i.role
  | [], i => rfl
  | s :: ls, i => by
      rw [List.foldl_cons, foldl_refreshStep_role ls, refreshStep_role]

/-- Address preservation through the whole fold. -/
theorem foldl_refreshStep_address : ∀ (ls : List (List Char)) (i : Instance),
    (ls.foldl refreshStep i).address = i.address
  | [], i => rfl
  | s :: ls, i => by
      rw [List.foldl_cons, foldl_refreshStep_address ls, refreshStep_address]

/-- Secondary-only fields preserved by the fold on a master record. -/
theorem foldl_refreshStep_master : ∀ (ls : List (List Char)) (i : Instance),
    i.role = RoleMaster →
    (ls.foldl refreshStep i).replicaPriority = i.replicaPriority ∧
    (ls.foldl refreshStep i).masterHost = i.masterHost ∧
    (ls.foldl refreshStep i).masterPort = i.masterPort ∧
    (ls.foldl refreshStep i).masterLinkStatus = i.masterLinkStatus
  | [], i, _ => ⟨rfl, rfl, rfl, rfl⟩
  | s :: ls, i, h => by
      rw [List.foldl_cons]
      have hstep := refreshStep_master i s h
      have hrole : (refreshStep i s).role = RoleMaster := by
        rw [refreshStep_role, h]
      have hrest := foldl_refreshStep_master ls (refreshStep i s) hrole
      exact ⟨hrest.1.trans hstep.1, hrest.2.1.trans hstep.2.1,
        hrest.2.2.1.trans hstep.2.2.1, hrest.2.2.2.trans hstep.2.2.2⟩

/-- Primary-only fields preserved by the fold on a replica record. -/
theorem foldl_refreshStep_replica : ∀ (ls : List (List Char)) (i : Instance),
    i.role = RoleReplica →
    (ls.foldl refreshStep i).connectedReplicas = i.connectedReplicas ∧
    (ls.foldl refreshStep i).replicas = i.replicas
  | [], i, _ => ⟨rfl, rfl⟩
  | s :: ls, i, h => by
      rw [List.foldl_cons]
      have hstep := refreshStep_replica i s h
      have hrole : (refreshStep i s).role = RoleReplica := by
        rw [refreshStep_role, h]
      have hrest := foldl_refreshStep_replica ls (refreshStep i s) hrole
      exact ⟨hrest.1.trans hstep.1, hrest.2.trans hstep.2⟩

/-- Claim C4: `refresh` fails exactly when the body contains neither role
marker; the empty body fails; and a body carrying only a role marker (no
line matched by the field expression) leaves every other field of a fresh
record zero-valued and succeeds. -/
theorem refresh_role_marker_error :
    (∀ (i : Instance) (info : String),
       (∃ e, refresh i info = Except.error e) ↔
       (strContains info RoleMaster = false ∧ strContains info RoleReplica = false)) ∧
    (∃ e, refresh zeroInstance "" = Except.error e) ∧
    (∀ info : String, strContains info RoleMaster = true → parsedLines info = [] →
       refresh zeroInstance info = Except.ok { zeroInstance with role := RoleMaster }) ∧
    (∀ info : String, strContains info RoleMaster = false →
       strContains info RoleReplica = true → parsedLines info = [] →
       refresh zeroInstance info = Except.ok { zeroInstance with role := RoleReplica }) := by
  refine ⟨?_, ⟨"the role is wrong", rfl⟩, ?_, ?_⟩
  · intro i info
    constructor
    · rintro ⟨e, he⟩
      rcases h1 : strContains info RoleMaster with _ | _ <;>
        rcases h2 : strContains info RoleReplica with _ | _ <;>
          simp [refresh, h1, h2] at he ⊢
    · rintro ⟨h1, h2⟩
      exact ⟨"the role is wrong", by simp [refresh, h1, h2]⟩
  · intro info h1 h2
    simp [refresh, h1, h2]
  · intro info h1 h2 h3
    simp [refresh, h1, h2, h3]

/-- Witness for C4: concrete one-marker bodies parse to the fresh record
with only the role set, and the empty body fails. -/
theorem refresh_role_marker_error_witness :
    refresh zeroInstance "role:master" =
      Except.ok { zeroInstance with role := RoleMaster } ∧
    refresh zeroInstance "role:slave" =
      Except.ok { zeroInstance with role := RoleReplica } :=
  ⟨refresh_role_marker_error.2.2.1 "role:master" (by decide) (by decide),
   refresh_role_marker_error.2.2.2 "role:slave" (by decide) (by decide) (by decide)⟩

/-- Counterexample for claim C5: refreshing a record that previously held
the SECONDARY role with a body reporting PRIMARY succeeds yet leaves the
stale secondary-priority in place — the attribute switch only sets fields
guarded by the new role and never clears the other role's fields.  The
starting record is itself the result of a successful refresh of the fresh
record (exactly the sequence of the promotion poll). -/
theorem refresh_stale_fields_counterexample :
    refresh zeroInstance "role:slave\nslave_priority:100" =
      Except.ok sampleRefreshedReplica ∧
    refresh sampleRefreshedReplica "role:master" =
      Except.ok { sampleRefreshedReplica with role := RoleMaster } ∧
    ({ sampleRefreshedReplica with role := RoleMaster } : Instance).role = RoleMaster ∧
    ({ sampleRefreshedReplica with role := RoleMaster } : Instance).replicaPriority = 100 := by
  refine ⟨?_, ?_, rfl, rfl⟩ <;> rfl

/-- Claim C5 (amended): after a successful refresh of a fresh (zero-valued)
record, the role-consistency invariant holds — a PRIMARY record has
zero-valued secondary-only fields and a SECONDARY record has zero-valued
primary-only fields.  (As stated, over re-refreshed records, the claim
fails; see the counterexample.) -/
theorem refresh_fresh_record_role_fields :
    ∀ (info : String) (i : Instance), refresh zeroInstance info = Except.ok i →
      (i.role = RoleMaster → i.replicaPriority = 0 ∧ i.masterHost = "" ∧
        i.masterPort = "" ∧ i.masterLinkStatus = "") ∧
      (i.role = RoleReplica → i.connectedReplicas = 0 ∧ i.replicas = []) := by
  intro info i h
  rw [refresh] at h
  by_cases h1 : strContains info RoleMaster = true
  · rw [if_pos h1] at h
    injection h with h
    subst h
    constructor
    · intro _
      simpa using foldl_refreshStep_master (parsedLines info)
        { zeroInstance with role := RoleMaster } rfl
    · intro hrep
      rw [foldl_refreshStep_role] at hrep
      exact absurd hrep (by decide)
  · rw [if_neg h1] at h
    by_cases h2 : strContains info RoleReplica = true
    · rw [if_pos h2] at h
      injection h with h
      subst h
      constructor
      · intro hmas
        rw [foldl_refreshStep_role] at hmas
        exact absurd hmas (by decide)
      · intro _
        simpa using foldl_refreshStep_replica (parsedLines info)
          { zeroInstance with role := RoleReplica } rfl
    · rw [if_neg h2] at h
      cases h

/-- Witness for C5: the invariant evaluated after refreshing the fresh
record with a concrete master body carrying replica lines. -/
theorem refresh_fresh_record_role_fields_witness :
    (({ zeroInstance with role := RoleMaster, connectedReplicas := 2 } : Instance).replicaPriority = 0 ∧
     ({ zeroInstance with role := RoleMaster, connectedReplicas := 2 } : Instance).masterHost = "" ∧
     ({ zeroInstance with role := RoleMaster, connectedReplicas := 2 } : Instance).masterPort = "" ∧
     ({ zeroInstance with role := RoleMaster, connectedReplicas := 2 } : Instance).masterLinkStatus = "") :=
  (refresh_fresh_record_role_fields "role:master\nconnected_slaves:2"
    { zeroInstance with role := RoleMaster, connectedReplicas := 2 } (by rfl)).1 rfl

/-- A successful refresh never changes the address. -/
theorem refresh_preserves_address (i : Instance) (info : String) (j : Instance)
    (h : refresh i info = Except.ok j) : j.address = i.address := by
  rw [refresh] at h
  by_cases h1 : strContains info RoleMaster = true
  · rw [if_pos h1] at h
    injection h with h
    rw [← h, foldl_refreshStep_address]
  · rw [if_neg h1] at h
    by_cases h2 : strContains info RoleReplica = true
    · rw [if_pos h2] at h
      injection h with h
      rw [← h, foldl_refreshStep_address]
    · rw [if_neg h2] at h
      cases h

/-- A successful per-instance refresh never changes the address. -/
theorem refreshInstance_preserves_address (infoOf : Address → Option String)
    (i : Instance) (j : Instance) (h : refreshInstance infoOf i = Except.ok j) :
    j.address = i.address := by
  rw [refreshInstance] at h
  rcases hio : infoOf i.address with _ | info
  · rw [hio] at h; cases h
  · rw [hio] at h
    exact refresh_preserves_address i info j h

/-- A successful `Refresh` preserves the address sequence. -/
theorem refreshAll_preserves_addresses (infoOf : Address → Option String) :
    ∀ (ins js : instances), refreshAll infoOf ins = Except.ok js →
      js.map (fun i => i.address) = ins.map (fun i => i.address)
  | [], js, h => by
      rw [refreshAll] at h
      injection h with h
      rw [← h]
  | i :: rest, js, h => by
      rw [refreshAll] at h
      rcases h1 : refreshInstance infoOf i with e | j <;> rw [h1] at h
      · rcases h2 : refreshAll infoOf rest with f | js' <;> rw [h2] at h <;> cases h
      · rcases h2 : refreshAll infoOf rest with f | js' <;> rw [h2] at h
        · cases h
        · injection h with h
          rw [← h, List.map_cons, List.map_cons,
            refreshInstance_preserves_address infoOf i j h1,
            refreshAll_preserves_addresses infoOf rest js' h2]

/-- The addresses of the retained instances are the ping-healthy addresses. -/
theorem retained_addresses (pingOk : Address → Bool) (addresses : List Address) :
    ((addresses.filter pingOk).map
        (fun a => { zeroInstance with address := a : Instance })).map
      (fun i => i.address) = addresses.filter pingOk := by
  rw [List.map_map]
  generalize addresses.filter pingOk = l
  induction l with
  | nil => rfl
  | cons a l ih =>
      show a :: List.map _ l = a :: l
      rw [ih]

/-- Shared helper: with fewer than `MinimumFailoverSize` ping-healthy
addresses, `New` fails. -/
theorem New_quorum_error (pingOk : Address → Bool) (infoOf : Address → Option String)
    (addresses : List Address)
    (h : (addresses.filter pingOk).length < MinimumFailoverSize) :
    ∃ e, (New pingOk infoOf addresses).1 = Except.error e := by
  rw [New]
  simp only [List.length_map]
  rw [if_pos h]
  exact ⟨_, rfl⟩

/-- Claim C7: `New` fails when fewer than two addresses answer ping; on
every failure path the closed connections are exactly the opened ones
(one per address); and on success the engine holds exactly the instances
of the ping-healthy addresses, with only the ping-failed connections
closed. -/
theorem new_quorum_and_connection_release :
    (∀ (pingOk : Address → Bool) (infoOf : Address → Option String)
       (addresses : List Address),
       (addresses.filter pingOk).length < MinimumFailoverSize →
       ∃ e, (New pingOk infoOf addresses).1 = Except.error e) ∧
    (∀ (pingOk : Address → Bool) (infoOf : Address → Option String)
       (addresses : List Address) (e : String),
       (New pingOk infoOf addresses).1 = Except.error e →
       (New pingOk infoOf addresses).2.Perm addresses) ∧
    (∀ (pingOk : Address → Bool) (infoOf : Address → Option String)
       (addresses : List Address) (engine : instances),
       (New pingOk infoOf addresses).1 = Except.ok engine →
       engine.map (fun i => i.address) = addresses.filter pingOk ∧
       (New pingOk infoOf addresses).2 = addresses.filter (fun a => !pingOk a)) := by
  have hperm : ∀ (pingOk : Address → Bool) (addresses : List Address),
      (addresses.filter (fun a => !pingOk a) ++ addresses.filter pingOk).Perm
        addresses := by
    intro pingOk addresses
    exact (List.perm_append_comm).trans (List.filter_append_perm pingOk addresses)
  refine ⟨New_quorum_error, ?_, ?_⟩
  · intro pingOk infoOf addresses e h
    rw [New]
    rw [New] at h
    by_cases hq :
        ((addresses.filter pingOk).map
          (fun a => { zeroInstance with address := a : Instance })).length <
          MinimumFailoverSize
    · rw [if_pos hq]
      simp only [retained_addresses]
      exact hperm pingOk addresses
    · rw [if_neg hq]
      rw [if_neg hq] at h
      rcases hr : refreshAll infoOf
          ((addresses.filter pingOk).map
            (fun a => { zeroInstance with address := a : Instance })) with f | js
      · simp only [hr, retained_addresses]
        exact hperm pingOk addresses
      · rw [hr] at h
        cases h
  · intro pingOk infoOf addresses engine h
    rw [New]
    rw [New] at h
    by_cases hq :
        ((addresses.filter pingOk).map
          (fun a => { zeroInstance with address := a : Instance })).length <
          MinimumFailoverSize
    · rw [if_pos hq] at h
      cases h
    · rw [if_neg hq]
      rw [if_neg hq] at h
      rcases hr : refreshAll infoOf
          ((addresses.filter pingOk).map
            (fun a => { zeroInstance with address := a : Instance })) with f | js
      · rw [hr] at h
        cases h
      · rw [hr] at h
        injection h with h
        subst h
        refine ⟨?_, rfl⟩
        rw [refreshAll_preserves_addresses infoOf _ _ hr, retained_addresses]

/-- Witness for C7: on two concrete addresses with one healthy instance,
construction fails and both connections end up closed; with two healthy
instances answering a master body and a replica body, construction
succeeds with the two addresses retained. -/
theorem new_quorum_and_connection_release_witness :
    (∃ e, (New (fun a => a == addrA) (fun _ => none) [addrA, addrB]).1 =
      Except.error e) ∧
    (New (fun a => a == addrA) (fun _ => none) [addrA, addrB]).2.Perm
      [addrA, addrB] ∧
    ((New (fun _ => true) (fun a => if a == addrA then some "role:master"
        else some "role:slave") [addrA, addrB]).1 =
      Except.ok [{ zeroInstance with address := addrA, role := RoleMaster },
                 { zeroInstance with address := addrB, role := RoleReplica }] →
      [({ zeroInstance with address := addrA, role := RoleMaster } : Instance),
       { zeroInstance with address := addrB, role := RoleReplica }].map
          (fun i => i.address) = [addrA, addrB].filter (fun _ => true)) :=
  ⟨new_quorum_and_connection_release.1 (fun a => a == addrA) (fun _ => none)
      [addrA, addrB] (by decide),
   new_quorum_and_connection_release.2.1 (fun a => a == addrA) (fun _ => none)
      [addrA, addrB] "minimum replication size is not met" (by rfl),
   fun h => (new_quorum_and_connection_release.2.2 (fun _ => true)
      (fun a => if a == addrA then some "role:master" else some "role:slave")
      [addrA, addrB] _ h).1⟩

/-- Claim C6 (amended): engine construction refuses address sets with fewer
than two ping-healthy members; `Reconfigure` on the empty set issues no
command; and on a singleton set no orphan reassignment is ever issued — the
only command possibly issued is the promotion reassign (target `NO ONE`)
sent to the singleton itself when it is a candidate secondary.  (The
original claim — no reassignment at all below the failover size — fails on
that promotion command; see the counterexample.) -/
theorem small_sets_no_orphan_reassign :
    (∀ (pingOk : Address → Bool) (infoOf : Address → Option String)
       (addresses : List Address),
       (addresses.filter pingOk).length < MinimumFailoverSize →
       ∃ e, (New pingOk infoOf addresses).1 = Except.error e) ∧
    (∀ (poll : Instance → Option Instance) (ins : instances),
       (∀ i m, poll i = some m → m.address = i.address) →
       ins.length ≤ 1 →
       ((Reconfigure poll ins).1 = [] ∨
        ∃ i, ins = [i] ∧
          (Reconfigure poll ins).1 = [{ receiver := i.address, target := noOne }])) := by
  refine ⟨New_quorum_error, ?_⟩
  intro poll ins hpoll hlen
  match ins with
  | [] => exact Or.inl rfl
  | [i] =>
    rcases hsel : selectMaster [i] with _ | m
    · rcases hcand : promotionCandidates [i] with _ | ⟨c, rest⟩
      · refine Or.inl ?_
        have hsort : sortInstances (promotionCandidates [i]) = [] := by
          rw [hcand, sortInstances, List.mergeSort_nil]
        rw [Reconfigure, if_neg (by simp), hsel, promoteReplicaToMaster, hsort]
      · have hci : c = i ∧ rest = [] := by
          rcases hv : viableReplicaB i with _ | _
          · rw [promotionCandidates, List.filter_cons, hv] at hcand
            simp at hcand
          · rw [promotionCandidates, List.filter_cons, hv] at hcand
            simp at hcand
            exact ⟨hcand.1.symm, hcand.2⟩
        obtain ⟨rfl, rfl⟩ := hci
        have hsort : sortInstances (promotionCandidates [c]) = [c] := by
          rw [hcand, sortInstances, List.mergeSort_singleton]
        have hcmd : replicaOf c emptyAddress =
            { receiver := c.address, target := noOne } := by
          rw [replicaOf, if_pos rfl]
        rcases hp : poll c with _ | m
        · refine Or.inr ⟨c, rfl, ?_⟩
          rw [Reconfigure, if_neg (by simp), hsel, promoteReplicaToMaster, hsort]
          simp [hp, hcmd]
        · have haddr : m.address = c.address := hpoll c m hp
          have horph : orphanedReplicas [c] m = [] := by
            simp [orphanedReplicas, haddr]
          refine Or.inr ⟨c, rfl, ?_⟩
          rw [Reconfigure, if_neg (by simp), hsel, promoteReplicaToMaster, hsort]
          simp [hp, hcmd, horph, reconfigureAsReplicasOf]
    · have hmi : m = i := by
        rw [selectMaster] at hsel
        rcases hf : List.find? workingMasterB [i] with _ | j
        · rw [hf] at hsel
          rcases ha : List.any [i] viableReplicaB with _ | _ <;> rw [ha] at hsel
          · simp at hsel
            exact hsel.symm
          · simp at hsel
        · rw [hf] at hsel
          injection hsel with hsel
          have := List.mem_of_find?_eq_some hf
          simp at this
          rw [← hsel, this]
      subst hmi
      refine Or.inl ?_
      have horph : orphanedReplicas [m] m = [] := by
        simp [orphanedReplicas]
      rw [Reconfigure, if_neg (by simp), hsel]
      simp [horph, reconfigureAsReplicasOf]
  | a :: b :: rest => simp at hlen

/-- Witness for C6: the empty set and a singleton working master yield no
command, and `New` on a single healthy address fails. -/
theorem small_sets_no_orphan_reassign_witness :
    ((Reconfigure (fun _ => none) []).1 = [] ∨
     ∃ i, ([] : instances) = [i] ∧
       (Reconfigure (fun _ => none) []).1 = [{ receiver := i.address, target := noOne }]) ∧
    (∃ e, (New (fun _ => true) (fun _ => none) [addrA]).1 = Except.error e) :=
  ⟨small_sets_no_orphan_reassign.2 (fun _ => none) [] (fun i m h => by cases h)
      (by decide),
   small_sets_no_orphan_reassign.1 (fun _ => true) (fun _ => none) [addrA]
      (by decide)⟩

/-- Appending strings concatenates their character data. -/
theorem string_data_append (a b : String) : (a ++ b).data = a.data ++ b.data := by
  cases a
  cases b
  rfl

/-- A string is its own character data. -/
theorem string_mk_data (s : String) : String.mk s.data = s := by
  cases s
  rfl

/-- `takeWhile` passes over a fully accepted prefix. -/
theorem takeWhile_append_all {p : Char → Bool} :
    ∀ (a b : List Char), (∀ c ∈ a, p c = true) →
      (a ++ b).takeWhile p = a ++ b.takeWhile p
  | [], b, _ => rfl
  | c :: a, b, h => by
      rw [List.cons_append, List.takeWhile_cons, h c (List.mem_cons_self c a),
        takeWhile_append_all a b (fun x hx => h x (List.mem_cons_of_mem c hx))]
      simp

/-- `takeWhile` stops inside a prefix containing a rejected character. -/
theorem takeWhile_append_stop {p : Char → Bool} :
    ∀ (a b : List Char), (∃ c ∈ a, p c = false) →
      (a ++ b).takeWhile p = a.takeWhile p
  | [], _, h => by
      obtain ⟨c, hc, _⟩ := h
      cases hc
  | c :: a, b, h => by
      rw [List.cons_append, List.takeWhile_cons, List.takeWhile_cons]
      rcases hp : p c with _ | _
      · rfl
      · obtain ⟨d, hd, hpd⟩ := h
        rcases List.mem_cons.mp hd with rfl | hd'
        · rw [hp] at hpd
          cases hpd
        · rw [takeWhile_append_stop a b ⟨d, hd', hpd⟩]

/-- `splitChar` never returns the empty list of pieces. -/
theorem splitChar_ne_nil (sep : Char) : ∀ cs : List Char, splitChar sep cs ≠ []
  | [], h => by cases h
  | c :: cs, h => by
      rw [splitChar] at h
      rcases hr : splitChar sep cs with _ | ⟨r, rs⟩
      · exact splitChar_ne_nil sep cs hr
      · rw [hr] at h
        rcases hc : c == sep with _ | _ <;> rw [hc] at h <;> cases h

/-- Splitting at a separator that first occurs after a clean prefix yields
the prefix and the split of the remainder. -/
theorem splitChar_append (sep : Char) :
    ∀ (a b : List Char), (∀ c ∈ a, (c == sep) = false) →
      splitChar sep (a ++ sep :: b) = a :: splitChar sep b
  | [], b, _ => by
      show splitChar sep (sep :: b) = [] :: splitChar sep b
      rw [splitChar]
      rcases hr : splitChar sep b with _ | ⟨r, rs⟩
      · exact absurd hr (splitChar_ne_nil sep b)
      · simp
  | c :: a, b, h => by
      rw [List.cons_append, splitChar,
        splitChar_append sep a b (fun x hx => h x (List.mem_cons_of_mem c hx)),
        h c (List.mem_cons_self c a)]
      simp

/-- Splitting the concatenation of newline-terminated newline-free lines
recovers the lines, plus the empty remainder after the final newline. -/
theorem linesOf_concatLines :
    ∀ ls : List String, (∀ l ∈ ls, ∀ c ∈ l.data, (c == '\n') = false) →
      linesOf (concatLines ls) = ls ++ [""]
  | [], _ => rfl
  | l :: ls, h => by
      rw [concatLines, linesOf, string_data_append, string_data_append]
      have hd : ("\n".data : List Char) = ['\n'] := rfl
      rw [hd, List.append_assoc, List.singleton_append,
        splitChar_append '\n' l.data ((concatLines ls).data)
          (h l (List.mem_cons_self l ls)),
        List.map_cons, string_mk_data]
      have hrest := linesOf_concatLines ls
        (fun x hx => h x (List.mem_cons_of_mem l hx))
      rw [linesOf] at hrest
      rw [hrest]
      rfl

/-- No newline occurs in the generated comment header. -/
theorem no_nl_header :
    ∀ c ∈ ("# Generated by redis-operator for redis.k8s.amaiz.com/" :
      String).data, (c == '\n') = false := by decide

/-- No newline occurs in the working-directory line. -/
theorem no_nl_dir : ∀ c ∈ ("dir " ++ workingDir).data, (c == '\n') = false := by
  decide

/-- No newline occurs in the credential include line. -/
theorem no_nl_include :
    ∀ c ∈ ("include " ++ secretMountPath).data, (c == '\n') = false := by decide

/-- The key/value separator is not a newline. -/
theorem no_nl_sep : ∀ c ∈ (" " : String).data, (c == '\n') = false := by decide

/-- No newline occurs in the replicaof directive token. -/
theorem no_nl_repl :
    ∀ c ∈ ("replicaof " : String).data, (c == '\n') = false := by decide

/-- No newline occurs in the fixed port suffix. -/
theorem no_nl_port : ∀ c ∈ (" 6379" : String).data, (c == '\n') = false := by
  decide

/-- Counterexample for claim C8: the deny-list check compares the exact
user key, so the pair with key `bind 0.0.0.0` — whose first token is the
deny-listed directive `bind` — is emitted.  The generated body consists of
exactly the comment line, the `dir` line, that user line and the empty
remainder: the deny-listed directive `bind` appears on a line that is none
of the controller-managed `dir`/`include`/`replicaof` directives. -/
theorem configmap_denylist_bypass_counterexample :
    linesOf (generateConfigMap bindBypassResource emptyAddress) =
      ["# Generated by redis-operator for redis.k8s.amaiz.com/r", "dir /data",
       "bind 0.0.0.0 x", ""] ∧
    firstToken "bind 0.0.0.0 x" = "bind" ∧
    "bind" ∈ excludedConfigDirectives ∧
    "bind 0.0.0.0 x" ≠ "# Generated by redis-operator for redis.k8s.amaiz.com/r" ∧
    firstToken "bind 0.0.0.0 x" ≠ "dir" ∧
    firstToken "bind 0.0.0.0 x" ≠ "include" ∧
    firstToken "bind 0.0.0.0 x" ≠ "replicaof" := by
  refine ⟨by rfl, by rfl, by decide, by decide, by decide, by decide, by decide⟩

/-- Claim C8 (amended): provided every user-supplied configuration key is
free of spaces and newlines (and name, values and master host are free of
newlines), every line of the generated body whose directive token is
deny-listed is one of the controller-managed lines: the `dir` line, the
credential `include` line, or the `replicaof` line.  Every user pair whose
exact key is deny-listed is omitted.  (Without the space-free proviso the
claim fails: a user key extending a deny-listed directive smuggles it in —
see the counterexample.) -/
theorem configmap_denylist_spacefree_keys :
    ∀ (r : RedisResource) (master : Address),
      (∀ c ∈ r.name.data, (c == '\n') = false) →
      (∀ kv ∈ r.config, ∀ c ∈ (kv.1 : String).data,
        (c == ' ') = false ∧ (c == '\n') = false) →
      (∀ kv ∈ r.config, ∀ c ∈ (kv.2 : String).data, (c == '\n') = false) →
      (∀ c ∈ master.host.data, (c == '\n') = false) →
      ∀ l ∈ linesOf (generateConfigMap r master),
        firstToken l ∈ excludedConfigDirectives →
        l = "dir " ++ workingDir ∨ l = "include " ++ secretMountPath ∨
        l = "replicaof " ++ master.host ++ " 6379" := by
  intro r master hname hkeys hvals hhost l hl hdeny
  have hnl : ∀ x ∈ configMapLines r master, ∀ c ∈ x.data, (c == '\n') = false := by
    intro x hx
    rw [configMapLines] at hx
    rcases List.mem_append.mp hx with hx | hx
    rotate_left
    · by_cases hm : master = emptyAddress
      · rw [if_neg (by simp [hm])] at hx
        cases hx
      · rw [if_pos hm] at hx
        rcases List.mem_singleton.mp hx with rfl
        intro c hc
        rw [string_data_append, string_data_append] at hc
        rcases List.mem_append.mp hc with hc | hc
        rotate_left
        · exact no_nl_port c hc
        rcases List.mem_append.mp hc with hc | hc
        · exact no_nl_repl c hc
        · exact hhost c hc
    rcases List.mem_append.mp hx with hx | hx
    rotate_left
    · obtain ⟨kv, hkv, hsome⟩ := List.mem_filterMap.mp hx
      rcases hctn : excludedConfigDirectives.contains kv.1 with _ | _
      · rw [hctn] at hsome
        simp only [if_neg Bool.false_ne_true] at hsome
        injection hsome with hsome
        intro c hc
        rw [← hsome, string_data_append, string_data_append] at hc
        rcases List.mem_append.mp hc with hc | hc
        rotate_left
        · exact hvals kv hkv c hc
        rcases List.mem_append.mp hc with hc | hc
        · exact (hkeys kv hkv c hc).2
        · exact no_nl_sep c hc
      · rw [hctn] at hsome
        simp at hsome
    rcases List.mem_append.mp hx with hx | hx
    rotate_left
    · rcases hs : r.hasSecretRef with _ | _
      · rw [if_neg (by simp [hs])] at hx
        cases hx
      · rw [if_pos hs] at hx
        rcases List.mem_singleton.mp hx with rfl
        exact no_nl_include
    rcases List.mem_cons.mp hx with rfl | hx
    · intro c hc
      rw [string_data_append] at hc
      rcases List.mem_append.mp hc with hc | hc
      · exact no_nl_header c hc
      · exact hname c hc
    · rcases List.mem_singleton.mp hx with rfl
      exact no_nl_dir
  rw [generateConfigMap, linesOf_concatLines (configMapLines r master) hnl] at hl
  rcases List.mem_append.mp hl with hl | hl
  rotate_left
  · rcases List.mem_singleton.mp hl with rfl
    exact absurd hdeny (by decide)
  rw [configMapLines] at hl
  rcases List.mem_append.mp hl with hl | hl
  rotate_left
  · by_cases hm : master = emptyAddress
    · rw [if_neg (by simp [hm])] at hl
      cases hl
    · rw [if_pos hm] at hl
      rcases List.mem_singleton.mp hl with rfl
      exact Or.inr (Or.inr rfl)
  rcases List.mem_append.mp hl with hl | hl
  rotate_left
  · obtain ⟨kv, hkv, hsome⟩ := List.mem_filterMap.mp hl
    rcases hctn : excludedConfigDirectives.contains kv.1 with _ | _
    · rw [hctn] at hsome
      simp only [if_neg Bool.false_ne_true] at hsome
      injection hsome with hsome
      have hfk : firstToken (kv.1 ++ " " ++ kv.2) = kv.1 := by
        rw [firstToken, string_data_append, string_data_append,
          List.append_assoc,
          takeWhile_append_all _ _
            (fun c hc => by simp [(hkeys kv hkv c hc).1])]
        have hsp : (((" " : String).data ++ kv.2.data).takeWhile
            (fun c => !(c == ' '))) = [] := by
          rw [show ((" " : String).data ++ kv.2.data) = ' ' :: kv.2.data
            from rfl, List.takeWhile_cons]
          simp
        rw [hsp, List.append_nil, string_mk_data]
      rw [← hsome, hfk] at hdeny
      have hmem : excludedConfigDirectives.contains kv.1 = true := by
        simpa using hdeny
      rw [hctn] at hmem
      cases hmem
    · rw [hctn] at hsome
      simp at hsome
  rcases List.mem_append.mp hl with hl | hl
  rotate_left
  · rcases hs : r.hasSecretRef with _ | _
    · rw [if_neg (by simp [hs])] at hl
      cases hl
    · rw [if_pos hs] at hl
      rcases List.mem_singleton.mp hl with rfl
      exact Or.inr (Or.inl rfl)
  rcases List.mem_cons.mp hl with rfl | hl
  · have hstop : ∃ c ∈ ("# Generated by redis-operator for redis.k8s.amaiz.com/" :
        String).data, (!(c == ' ')) = false := by decide
    have hft : firstToken
        ("# Generated by redis-operator for redis.k8s.amaiz.com/" ++ r.name) =
        "#" := by
      rw [firstToken, string_data_append, takeWhile_append_stop _ _ hstop]
      rfl
    rw [hft] at hdeny
    exact absurd hdeny (by decide)
  · rcases List.mem_singleton.mp hl with rfl
    exact Or.inl rfl

/-- Witness for claim C8's amended theorem: with the benign resource and a
concrete master address, the generated `replicaof` line carries a
deny-listed directive and is indeed the controller-managed replicaof
line. -/
theorem configmap_denylist_spacefree_keys_witness :
    "replicaof 10.0.0.1 6379" = "dir " ++ workingDir ∨
    "replicaof 10.0.0.1 6379" = "include " ++ secretMountPath ∨
    "replicaof 10.0.0.1 6379" =
      "replicaof " ++ (⟨"10.0.0.1", "6379"⟩ : Address).host ++ " 6379" :=
  configmap_denylist_spacefree_keys benignResource ⟨"10.0.0.1", "6379"⟩
    (by decide) (by decide) (by decide) (by decide)
    "replicaof 10.0.0.1 6379" (by decide) (by decide)

/-! ## The containment comparator: theorems -/

open GoValue

mutual
theorem eqv_refl : ∀ a : GoValue, eqv a a = true
  | vNil => by simp [eqv]
  | vBool b => by simp [eqv]
  | vInt n => by simp [eqv]
  | vUint n => by simp [eqv]
  | vString s => by simp [eqv]
  | vFunc => by simp [eqv]
  | vStruct n fs => by simp [eqv, eqvFields_refl fs]
  | vArray t es => by simp [eqv, eqvList_refl es]
  | vSlice t es => by simp [eqv, eqvList_refl es]
  | vMap kt vt ps => by simp [eqv, eqvPairs_refl ps]
  | vPtr t .null => by simp [eqv]
  | vPtr t (.ref a) => by simp [eqv, eqv_refl a]
termination_by structural a => a

theorem eqvFields_refl : ∀ f : GoFields, eqvFields f f = true
  | .nil => by simp [eqvFields]
  | .cons n v rest => by simp [eqvFields, eqv_refl v, eqvFields_refl rest]
termination_by structural f => f

theorem eqvList_refl : ∀ l : GoList, eqvList l l = true
  | .nil => by simp [eqvList]
  | .cons v rest => by simp [eqvList, eqv_refl v, eqvList_refl rest]
termination_by structural l => l

theorem eqvPairs_refl : ∀ p : GoPairs, eqvPairs p p = true
  | .nil => by simp [eqvPairs]
  | .cons k v rest => by simp [eqvPairs, eqv_refl k, eqv_refl v, eqvPairs_refl rest]
termination_by structural p => p
end

-- ### soundness of eqv

mutual
theorem eqv_eq (a b : GoValue) (h : eqv a b = true) : a = b := by
  cases a <;> cases b
  case vNil.vNil => rfl
  case vBool.vBool x y => simp only [eqv, beq_iff_eq] at h; rw [h]
  case vInt.vInt x y => simp only [eqv, beq_iff_eq] at h; rw [h]
  case vUint.vUint x y => simp only [eqv, beq_iff_eq] at h; rw [h]
  case vString.vString x y => simp only [eqv, beq_iff_eq] at h; rw [h]
  case vFunc.vFunc => rfl
  case vStruct.vStruct n1 f1 n2 f2 =>
    simp only [eqv, Bool.and_eq_true, beq_iff_eq] at h
    rw [h.1, eqvFields_eq f1 f2 h.2]
  case vArray.vArray t1 e1 t2 e2 =>
    simp only [eqv, Bool.and_eq_true, beq_iff_eq] at h
    rw [h.1, eqvList_eq e1 e2 h.2]
  case vSlice.vSlice t1 e1 t2 e2 =>
    simp only [eqv, Bool.and_eq_true, beq_iff_eq] at h
    rw [h.1, eqvList_eq e1 e2 h.2]
  case vMap.vMap k1 w1 p1 k2 w2 p2 =>
    simp only [eqv, Bool.and_eq_true, beq_iff_eq] at h
    rw [h.1.1, h.1.2, eqvPairs_eq p1 p2 h.2]
  case vPtr.vPtr t1 o1 t2 o2 =>
    cases o1 <;> cases o2
    case null.null => simp only [eqv, beq_iff_eq] at h; rw [h]
    case null.ref c => exact absurd h (by simp [eqv])
    case ref.null c => exact absurd h (by simp [eqv])
    case ref.ref c d =>
      simp only [eqv, Bool.and_eq_true, beq_iff_eq] at h
      rw [h.1, eqv_eq c d h.2]
  all_goals exact absurd h (by simp [eqv])
termination_by sizeOf a

theorem eqvFields_eq (f g : GoFields) (h : eqvFields f g = true) : f = g := by
  cases f <;> cases g
  case nil.nil => rfl
  case cons.cons n1 v1 r1 n2 v2 r2 =>
    simp only [eqvFields, Bool.and_eq_true, beq_iff_eq] at h
    rw [h.1.1, eqv_eq v1 v2 h.1.2, eqvFields_eq r1 r2 h.2]
  all_goals exact absurd h (by simp [eqvFields])
termination_by sizeOf f

theorem eqvList_eq (f g : GoList) (h : eqvList f g = true) : f = g := by
  cases f <;> cases g
  case nil.nil => rfl
  case cons.cons v1 r1 v2 r2 =>
    simp only [eqvList, Bool.and_eq_true] at h
    rw [eqv_eq v1 v2 h.1, eqvList_eq r1 r2 h.2]
  all_goals exact absurd h (by simp [eqvList])
termination_by sizeOf f

theorem eqvPairs_eq (f g : GoPairs) (h : eqvPairs f g = true) : f = g := by
  cases f <;> cases g
  case nil.nil => rfl
  case cons.cons k1 v1 r1 k2 v2 r2 =>
    simp only [eqvPairs, Bool.and_eq_true] at h
    rw [eqv_eq k1 k2 h.1.1, eqv_eq v1 v2 h.1.2, eqvPairs_eq r1 r2 h.2]
  all_goals exact absurd h (by simp [eqvPairs])
termination_by sizeOf f
end

-- ### lookup lemmas

theorem keyAbsent_not_found (k0 : GoValue) : ∀ (ps : GoPairs) (k v : GoValue),
    keyAbsent k0 ps = true → pairMemP k v ps → eqv k0 k = false
  | .nil, k, v, _, hm => absurd hm (by simp [pairMemP])
  | .cons k' v' rest, k, v, ha, hm => by
      simp only [keyAbsent, Bool.and_eq_true, Bool.not_eq_true'] at ha
      rcases hm with ⟨rfl, rfl⟩ | hm
      · exact ha.1.1
      · exact keyAbsent_not_found k0 rest k v ha.2 hm

theorem findVal_self : ∀ (ps : GoPairs) (k v : GoValue),
    keysDistinct ps = true → pairMemP k v ps → findVal k ps = some v
  | .nil, k, v, _, hm => absurd hm (by simp [pairMemP])
  | .cons k0 v0 rest, k, v, hd, hm => by
      simp only [keysDistinct, Bool.and_eq_true] at hd
      rcases hm with ⟨rfl, rfl⟩ | hm
      · simp [findVal, eqv_refl k]
      · have hne : eqv k0 k = false := keyAbsent_not_found k0 rest k v hd.1 hm
        simp [findVal, hne]
        exact findVal_self rest k v hd.2 hm

-- ### shape lemmas for deepContainsV

theorem V_nilR (x : GoValue) : deepContainsV x vNil = true := by
  cases x <;> simp [deepContainsV]

theorem V_nilL (z : GoValue) (h : z ≠ vNil) : deepContainsV vNil z = false := by
  cases z <;> simp_all [deepContainsV]

theorem V_type_ne (x y : GoValue) (hx : x ≠ vNil) (hy : y ≠ vNil)
    (h : typeOf x ≠ typeOf y) : deepContainsV x y = false := by
  cases x <;> cases y
  case vPtr.vPtr t1 o1 t2 o2 =>
    cases o1 <;> cases o2 <;> simp_all [deepContainsV, typeOf]
  all_goals
    first
    | exact absurd rfl hx
    | exact absurd rfl hy
    | simp_all [deepContainsV, typeOf]

theorem V_types (x y : GoValue) (hx : x ≠ vNil) (hy : y ≠ vNil)
    (h : deepContainsV x y = true) : typeOf x = typeOf y := by
  by_contra hne
  rw [V_type_ne x y hx hy hne] at h
  cases h

theorem V_of_empty (x z : GoValue) (hx : x ≠ vNil) (hz : z ≠ vNil)
    (ht : typeOf x = typeOf z) (he : isEmptyValue z = true) :
    deepContainsV x z = true := by
  cases x <;> cases z
  case vPtr.vPtr t1 o1 t2 o2 =>
    cases o1 <;> cases o2 <;> simp_all [deepContainsV, typeOf, isEmptyValue]
  case vArray.vArray t1 e1 t2 e2 =>
    cases e2 <;> simp_all [deepContainsV, typeOf, isEmptyValue, golLength, containsElems]
  case vSlice.vSlice t1 e1 t2 e2 =>
    cases e2 <;> simp_all [deepContainsV, typeOf, isEmptyValue]
  case vMap.vMap k1 w1 p1 k2 w2 p2 =>
    cases p2 <;> simp_all [deepContainsV, typeOf, isEmptyValue]
  all_goals
    first
    | exact absurd rfl hx
    | exact absurd rfl hz
    | simp_all [deepContainsV, typeOf, isEmptyValue]

theorem V_empty_cur (y z : GoValue) (hy : y ≠ vNil) (hz : z ≠ vNil)
    (ht : typeOf y = typeOf z) (he : isEmptyValue y = true)
    (hez : isEmptyValue z = false) : deepContainsV y z = false := by
  cases y <;> cases z
  case vPtr.vPtr t1 o1 t2 o2 =>
    cases o1 <;> cases o2 <;> simp_all [deepContainsV, typeOf, isEmptyValue]
  case vArray.vArray t1 e1 t2 e2 =>
    cases e1 <;> cases e2 <;>
      simp_all [deepContainsV, typeOf, isEmptyValue, golLength, containsElems]
  case vSlice.vSlice t1 e1 t2 e2 =>
    cases e1 <;> cases e2 <;>
      simp_all [deepContainsV, typeOf, isEmptyValue, golLength, containsElems]
  case vMap.vMap k1 w1 p1 k2 w2 p2 =>
    cases p1 <;> cases p2 <;>
      simp_all [deepContainsV, typeOf, isEmptyValue, containsPairs, findVal]
  case vInt.vInt a b =>
    simp_all [deepContainsV, typeOf, isEmptyValue]
    omega
  case vUint.vUint a b =>
    simp_all [deepContainsV, typeOf, isEmptyValue]
    omega
  case vString.vString a b =>
    simp_all [deepContainsV, typeOf, isEmptyValue]
    exact fun hcc => hez hcc.symm
  all_goals
    first
    | exact absurd rfl hy
    | exact absurd rfl hz
    | simp_all [deepContainsV, typeOf, isEmptyValue]

-- ### kind-arm equations

theorem V_bool_bool (a b : Bool) (hb : (b == false) = false) :
    deepContainsV (vBool a) (vBool b) = (a == b) := by
  simp [deepContainsV, typeOf, isEmptyValue, hb]

theorem V_int_int (a b : Int) (hb : (b == 0) = false) :
    deepContainsV (vInt a) (vInt b) = (a == b) := by
  simp_all [deepContainsV, typeOf, isEmptyValue]

theorem V_uint_uint (a b : Nat) (hb : (b == 0) = false) :
    deepContainsV (vUint a) (vUint b) = (a == b) := by
  simp_all [deepContainsV, typeOf, isEmptyValue]

theorem V_string_string (a b : String) (hb : (b == "") = false) :
    deepContainsV (vString a) (vString b) = (a == b) := by
  simp_all [deepContainsV, typeOf, isEmptyValue]

theorem V_func_func : deepContainsV vFunc vFunc = false := by
  simp [deepContainsV, typeOf, isEmptyValue]

theorem V_struct_struct (n1 n2 : String) (f1 f2 : GoFields) (hn : n1 = n2) :
    deepContainsV (vStruct n1 f1) (vStruct n2 f2) = containsFields f1 f2 := by
  simp [deepContainsV, typeOf, isEmptyValue, hn]

theorem V_array_array (t1 t2 : GoType) (e1 e2 : GoList) (ht : t1 = t2)
    (hl : golLength e1 = golLength e2) (hne : e2 ≠ GoList.nil) :
    deepContainsV (vArray t1 e1) (vArray t2 e2) = containsElems e1 e2 := by
  cases e2 with
  | nil => exact absurd rfl hne
  | cons v rest => simp [deepContainsV, typeOf, isEmptyValue, ht, hl]

theorem V_slice_slice (t1 t2 : GoType) (e1 e2 : GoList) (ht : t1 = t2)
    (hne : e2 ≠ GoList.nil) :
    deepContainsV (vSlice t1 e1) (vSlice t2 e2) =
      (golLength e1 == golLength e2 && containsElems e1 e2) := by
  cases e2 with
  | nil => exact absurd rfl hne
  | cons v rest => simp [deepContainsV, typeOf, isEmptyValue, ht]

theorem V_map_map (k1 w1 k2 w2 : GoType) (p1 p2 : GoPairs) (hk : k1 = k2)
    (hw : w1 = w2) (hne : p2 ≠ GoPairs.nil) :
    deepContainsV (vMap k1 w1 p1) (vMap k2 w2 p2) = containsPairs p1 p2 := by
  cases p2 with
  | nil => exact absurd rfl hne
  | cons k v rest => simp [deepContainsV, typeOf, isEmptyValue, hk, hw]

theorem V_ptr_ref_ref (t1 t2 : GoType) (a b : GoValue) (ht : t1 = t2) :
    deepContainsV (vPtr t1 (GoRef.ref a)) (vPtr t2 (GoRef.ref b)) =
      deepContainsV a b := by
  simp [deepContainsV, typeOf, isEmptyValue, ht]

theorem V_ptr_null_ref (t1 t2 : GoType) (b : GoValue) (ht : t1 = t2) :
    deepContainsV (vPtr t1 GoRef.null) (vPtr t2 (GoRef.ref b)) = false := by
  simp [deepContainsV, typeOf, isEmptyValue, ht]

-- ### reflexivity on good values

mutual
theorem refl_V : ∀ x : GoValue, goodValue x = true → deepContainsV x x = true
  | vNil, _ => by simp [deepContainsV]
  | vBool b, _ => by cases b <;> simp [deepContainsV, typeOf, isEmptyValue]
  | vInt n, _ => by simp [deepContainsV, typeOf, isEmptyValue]
  | vUint n, _ => by simp [deepContainsV, typeOf, isEmptyValue]
  | vString s, _ => by simp [deepContainsV, typeOf, isEmptyValue]
  | vFunc, hg => by simp [goodValue] at hg
  | vStruct n fs, hg => by
      have h := refl_Fields fs (by simpa [goodValue] using hg)
      simp [deepContainsV, typeOf, isEmptyValue, h]
  | vArray t es, hg => by
      have h := refl_Elems es (by simpa [goodValue] using hg)
      cases es <;> simp_all [deepContainsV, typeOf, isEmptyValue]
  | vSlice t es, hg => by
      have h := refl_Elems es (by simpa [goodValue] using hg)
      cases es <;> simp_all [deepContainsV, typeOf, isEmptyValue]
  | vMap kt wt ps, hg => by
      rw [goodValue, Bool.and_eq_true] at hg
      have h := refl_Pairs ps ps hg.2
        (fun k v hm => findVal_self ps k v hg.1 hm)
      cases ps <;> simp_all [deepContainsV, typeOf, isEmptyValue]
  | vPtr t GoRef.null, _ => by simp [deepContainsV, typeOf, isEmptyValue]
  | vPtr t (GoRef.ref a), hg => by
      have h := refl_V a (by simpa [goodValue] using hg)
      simp [deepContainsV, typeOf, isEmptyValue, h]
termination_by x => sizeOf x

theorem refl_Fields : ∀ fs : GoFields, goodFields fs = true → containsFields fs fs = true
  | .nil, _ => by simp [containsFields]
  | .cons n v rest, hg => by
      rw [goodFields, Bool.and_eq_true] at hg
      simp [containsFields, refl_V v hg.1, refl_Fields rest hg.2]
termination_by fs => sizeOf fs

theorem refl_Elems : ∀ es : GoList, goodList es = true → containsElems es es = true
  | .nil, _ => by simp [containsElems]
  | .cons v rest, hg => by
      rw [goodList, Bool.and_eq_true] at hg
      simp [containsElems, refl_V v hg.1, refl_Elems rest hg.2]
termination_by es => sizeOf es

theorem refl_Pairs : ∀ (full sub : GoPairs), goodPairs sub = true →
    (∀ k v, pairMemP k v sub → findVal k full = some v) →
    containsPairs full sub = true
  | full, .nil, _, _ => by simp [containsPairs]
  | full, .cons k v rest, hg, hf => by
      rw [goodPairs, Bool.and_eq_true, Bool.and_eq_true] at hg
      have h1 : findVal k full = some v := hf k v (Or.inl ⟨rfl, rfl⟩)
      have h2 := refl_V v hg.1.2
      have h3 := refl_Pairs full rest hg.2 (fun k' v' hm => hf k' v' (Or.inr hm))
      simp [containsPairs, h1, h2, h3]
termination_by _ sub => sizeOf sub
end

-- ### transitivity

theorem findVal_mono : ∀ (px py : GoPairs), containsPairs px py = true →
    ∀ k v, findVal k py = some v →
    ∃ vx, findVal k px = some vx ∧ deepContainsV vx v = true
  | px, .nil, _, k, v, hf => by simp [findVal] at hf
  | px, .cons k' v' ys, hc, k, v, hf => by
      rw [containsPairs, Bool.and_eq_true] at hc
      rw [findVal] at hf
      by_cases he : eqv k' k = true
      · rw [if_pos he] at hf
        injection hf with hv
        subst hv
        have hk : k' = k := eqv_eq k' k he
        subst hk
        rcases hx : findVal k' px with _ | vx
        · rw [hx] at hc; simp at hc
        · rw [hx] at hc
          exact ⟨vx, rfl, by simpa using hc.1⟩
      · rw [if_neg he] at hf
        exact findVal_mono px ys hc.2 k v hf

theorem shape_bool (y : GoValue) (c : Bool) (h : typeOf y = typeOf (vBool c)) :
    ∃ b, y = vBool b := by
  cases y <;> simp_all [typeOf]

theorem shape_int (y : GoValue) (c : Int) (h : typeOf y = typeOf (vInt c)) :
    ∃ b, y = vInt b := by
  cases y <;> simp_all [typeOf]

theorem shape_uint (y : GoValue) (c : Nat) (h : typeOf y = typeOf (vUint c)) :
    ∃ b, y = vUint b := by
  cases y <;> simp_all [typeOf]

theorem shape_string (y : GoValue) (c : String) (h : typeOf y = typeOf (vString c)) :
    ∃ b, y = vString b := by
  cases y <;> simp_all [typeOf]

theorem shape_func (y : GoValue) (h : typeOf y = typeOf vFunc) : y = vFunc := by
  cases y <;> simp_all [typeOf]

theorem shape_struct (y : GoValue) (n : String) (fz : GoFields)
    (h : typeOf y = typeOf (vStruct n fz)) : ∃ fy, y = vStruct n fy := by
  cases y <;> simp_all [typeOf]

theorem shape_array (y : GoValue) (t : GoType) (ez : GoList)
    (h : typeOf y = typeOf (vArray t ez)) :
    ∃ ey, y = vArray t ey ∧ golLength ey = golLength ez := by
  cases y <;> simp_all [typeOf]

theorem shape_slice (y : GoValue) (t : GoType) (ez : GoList)
    (h : typeOf y = typeOf (vSlice t ez)) : ∃ ey, y = vSlice t ey := by
  cases y <;> simp_all [typeOf]

theorem shape_map (y : GoValue) (kt wt : GoType) (pz : GoPairs)
    (h : typeOf y = typeOf (vMap kt wt pz)) : ∃ py, y = vMap kt wt py := by
  cases y <;> simp_all [typeOf]

theorem shape_ptr (y : GoValue) (t : GoType) (oz : GoRef)
    (h : typeOf y = typeOf (vPtr t oz)) : ∃ oy, y = vPtr t oy := by
  cases y <;> simp_all [typeOf]

mutual
theorem trans_V : ∀ (z x y : GoValue), deepContainsV x y = true →
    deepContainsV y z = true → deepContainsV x z = true
  | z, x, y, hxy, hyz => by
    by_cases hz : z = vNil
    · subst hz; exact V_nilR x
    have hy : y ≠ vNil := by
      rintro rfl
      rw [V_nilL z hz] at hyz; cases hyz
    have hx : x ≠ vNil := by
      rintro rfl
      rw [V_nilL y hy] at hxy; cases hxy
    have htyz : typeOf y = typeOf z := V_types y z hy hz hyz
    have htxy : typeOf x = typeOf y := V_types x y hx hy hxy
    by_cases hez : isEmptyValue z = true
    · exact V_of_empty x z hx hz (htxy.trans htyz) hez
    have hez' : isEmptyValue z = false := Bool.eq_false_iff.mpr hez
    have hey' : isEmptyValue y = false := by
      rcases hey : isEmptyValue y with _ | _
      · rfl
      · rw [V_empty_cur y z hy hz htyz hey hez'] at hyz; cases hyz
    cases z with
    | vNil => exact absurd rfl hz
    | vBool c =>
      obtain ⟨b, rfl⟩ := shape_bool y c htyz
      obtain ⟨a, rfl⟩ := shape_bool x b htxy
      have hcb : (c == false) = false := by simpa [isEmptyValue] using hez'
      have hbb : (b == false) = false := by simpa [isEmptyValue] using hey'
      rw [V_bool_bool b c hcb] at hyz
      rw [V_bool_bool a b hbb] at hxy
      rw [V_bool_bool a c hcb]
      simp only [beq_iff_eq] at hxy hyz ⊢
      rw [hxy, hyz]
    | vInt c =>
      obtain ⟨b, rfl⟩ := shape_int y c htyz
      obtain ⟨a, rfl⟩ := shape_int x b htxy
      have hcb : (c == 0) = false := by simpa [isEmptyValue] using hez'
      have hbb : (b == 0) = false := by simpa [isEmptyValue] using hey'
      rw [V_int_int b c hcb] at hyz
      rw [V_int_int a b hbb] at hxy
      rw [V_int_int a c hcb]
      simp only [beq_iff_eq] at hxy hyz ⊢
      rw [hxy, hyz]
    | vUint c =>
      obtain ⟨b, rfl⟩ := shape_uint y c htyz
      obtain ⟨a, rfl⟩ := shape_uint x b htxy
      have hcb : (c == 0) = false := by simpa [isEmptyValue] using hez'
      have hbb : (b == 0) = false := by simpa [isEmptyValue] using hey'
      rw [V_uint_uint b c hcb] at hyz
      rw [V_uint_uint a b hbb] at hxy
      rw [V_uint_uint a c hcb]
      simp only [beq_iff_eq] at hxy hyz ⊢
      rw [hxy, hyz]
    | vString c =>
      obtain ⟨b, rfl⟩ := shape_string y c htyz
      obtain ⟨a, rfl⟩ := shape_string x b htxy
      have hcb : (c == "") = false := by simpa [isEmptyValue] using hez'
      have hbb : (b == "") = false := by simpa [isEmptyValue] using hey'
      rw [V_string_string b c hcb] at hyz
      rw [V_string_string a b hbb] at hxy
      rw [V_string_string a c hcb]
      simp only [beq_iff_eq] at hxy hyz ⊢
      rw [hxy, hyz]
    | vFunc =>
      obtain rfl := shape_func y htyz
      rw [V_func_func] at hyz
      cases hyz
    | vStruct nz fz =>
      obtain ⟨fy, rfl⟩ := shape_struct y nz fz htyz
      obtain ⟨fx, rfl⟩ := shape_struct x nz fy htxy
      rw [V_struct_struct nz nz fy fz rfl] at hyz
      rw [V_struct_struct nz nz fx fy rfl] at hxy
      rw [V_struct_struct nz nz fx fz rfl]
      exact trans_Fields fz fx fy hxy hyz
    | vArray tz ez =>
      obtain ⟨ey, rfl, hly⟩ := shape_array y tz ez htyz
      obtain ⟨ex, rfl, hlx⟩ := shape_array x tz ey htxy
      have hnez : ez ≠ GoList.nil := by
        rintro rfl
        simp [isEmptyValue] at hez'
      have hney : ey ≠ GoList.nil := by
        rintro rfl
        simp [isEmptyValue] at hey'
      rw [V_array_array tz tz ey ez rfl hly hnez] at hyz
      rw [V_array_array tz tz ex ey rfl hlx hney] at hxy
      rw [V_array_array tz tz ex ez rfl (hlx.trans hly) hnez]
      exact trans_Elems ez ex ey hxy hyz
    | vSlice tz ez =>
      obtain ⟨ey, rfl⟩ := shape_slice y tz ez htyz
      obtain ⟨ex, rfl⟩ := shape_slice x tz ey htxy
      have hnez : ez ≠ GoList.nil := by
        rintro rfl
        simp [isEmptyValue] at hez'
      have hney : ey ≠ GoList.nil := by
        rintro rfl
        simp [isEmptyValue] at hey'
      rw [V_slice_slice tz tz ey ez rfl hnez] at hyz
      rw [V_slice_slice tz tz ex ey rfl hney] at hxy
      rw [V_slice_slice tz tz ex ez rfl hnez]
      rw [Bool.and_eq_true] at hxy hyz ⊢
      refine ⟨?_, trans_Elems ez ex ey hxy.2 hyz.2⟩
      have h1 : golLength ex = golLength ey := by simpa using hxy.1
      have h2 : golLength ey = golLength ez := by simpa using hyz.1
      simp [h1, h2]
    | vMap kz wz pz =>
      obtain ⟨py, rfl⟩ := shape_map y kz wz pz htyz
      obtain ⟨px, rfl⟩ := shape_map x kz wz py htxy
      have hnez : pz ≠ GoPairs.nil := by
        rintro rfl
        simp [isEmptyValue] at hez'
      have hney : py ≠ GoPairs.nil := by
        rintro rfl
        simp [isEmptyValue] at hey'
      rw [V_map_map kz wz kz wz py pz rfl rfl hnez] at hyz
      rw [V_map_map kz wz kz wz px py rfl rfl hney] at hxy
      rw [V_map_map kz wz kz wz px pz rfl rfl hnez]
      exact trans_Pairs pz px py hxy hyz
    | vPtr tz oz =>
      obtain ⟨oy, rfl⟩ := shape_ptr y tz oz htyz
      obtain ⟨ox, rfl⟩ := shape_ptr x tz oy htxy
      cases oz with
      | null => simp [isEmptyValue] at hez'
      | ref c =>
        cases oy with
        | null => simp [isEmptyValue] at hey'
        | ref b =>
          cases ox with
          | null =>
            rw [V_ptr_null_ref tz tz b rfl] at hxy
            cases hxy
          | ref a =>
            rw [V_ptr_ref_ref tz tz b c rfl] at hyz
            rw [V_ptr_ref_ref tz tz a b rfl] at hxy
            rw [V_ptr_ref_ref tz tz a c rfl]
            exact trans_V c a b hxy hyz
termination_by z => sizeOf z

theorem trans_Fields : ∀ (fz fx fy : GoFields), containsFields fx fy = true →
    containsFields fy fz = true → containsFields fx fz = true
  | .nil, fx, fy, hxy, hyz => by
      cases fy with
      | nil =>
        cases fx with
        | nil => simp [containsFields]
        | cons _ _ _ => simp [containsFields] at hxy
      | cons _ _ _ => simp [containsFields] at hyz
  | .cons nz vz zs, fx, fy, hxy, hyz => by
      cases fy with
      | nil => simp [containsFields] at hyz
      | cons ny vy ys =>
        cases fx with
        | nil => simp [containsFields] at hxy
        | cons nx vx xs =>
          rw [containsFields, Bool.and_eq_true, Bool.and_eq_true] at hxy hyz ⊢
          refine ⟨⟨?_, trans_V vz vx vy hxy.1.2 hyz.1.2⟩,
            trans_Fields zs xs ys hxy.2 hyz.2⟩
          have h1 := eq_of_beq hxy.1.1
          have h2 := eq_of_beq hyz.1.1
          simp [h1, h2]
termination_by fz => sizeOf fz

theorem trans_Elems : ∀ (ez ex ey : GoList), containsElems ex ey = true →
    containsElems ey ez = true → containsElems ex ez = true
  | .nil, ex, ey, hxy, hyz => by
      cases ey with
      | nil =>
        cases ex with
        | nil => simp [containsElems]
        | cons _ _ => simp [containsElems] at hxy
      | cons _ _ => simp [containsElems] at hyz
  | .cons vz zs, ex, ey, hxy, hyz => by
      cases ey with
      | nil => simp [containsElems] at hyz
      | cons vy ys =>
        cases ex with
        | nil => simp [containsElems] at hxy
        | cons vx xs =>
          rw [containsElems, Bool.and_eq_true] at hxy hyz ⊢
          exact ⟨trans_V vz vx vy hxy.1 hyz.1, trans_Elems zs xs ys hxy.2 hyz.2⟩
termination_by ez => sizeOf ez

theorem trans_Pairs : ∀ (pz px py : GoPairs), containsPairs px py = true →
    containsPairs py pz = true → containsPairs px pz = true
  | .nil, px, py, _, _ => by simp [containsPairs]
  | .cons k vz zs, px, py, hxy, hyz => by
      rw [containsPairs, Bool.and_eq_true] at hyz ⊢
      obtain ⟨h1, h2⟩ := hyz
      rcases hfy : findVal k py with _ | vy
      · rw [hfy] at h1; simp at h1
      · rw [hfy] at h1
        obtain ⟨vx, hfx, hvx⟩ := findVal_mono px py hxy k vy hfy
        refine ⟨?_, trans_Pairs zs px py hxy h2⟩
        rw [hfx]
        exact trans_V vz vx vy hvx (by simpa using h1)
termination_by pz => sizeOf pz
end

-- ### top level

theorem deepContains_eq_V (x y : GoValue) (hx : x ≠ vNil) (hy : y ≠ vNil) :
    deepContains x y = deepContainsV x y := by
  cases x <;> cases y <;> first | exact absurd rfl hx | exact absurd rfl hy | rfl

theorem deepContains_nilL (y : GoValue) : deepContains vNil y = false := by
  cases y <;> rfl

theorem deepContains_nilR (x : GoValue) : deepContains x vNil = false := by
  cases x <;> rfl

/-- Claim C9 (amended, spec-modelled): the containment comparator is
reflexive on non-nil function-free values whose maps carry duplicate-free
keys; two operands of different dynamic types never contain one another
(in either direction); and containment is transitive on all values. -/
theorem deepContains_refl_trans_types :
    (∀ x : GoValue, x ≠ GoValue.vNil → goodValue x = true → deepContains x x = true) ∧
    (∀ x y : GoValue, typeOf x ≠ typeOf y →
        deepContains x y = false ∧ deepContains y x = false) ∧
    (∀ x y z : GoValue, deepContains x y = true → deepContains y z = true →
        deepContains x z = true) := by
  refine ⟨?_, ?_, ?_⟩
  · intro x hx hg
    rw [deepContains_eq_V x x hx hx]
    exact refl_V x hg
  · intro x y ht
    have hside : ∀ a b : GoValue, typeOf a ≠ typeOf b → deepContains a b = false := by
      intro a b hab
      by_cases ha : a = vNil
      · subst ha; exact deepContains_nilL b
      by_cases hb : b = vNil
      · subst hb; exact deepContains_nilR a
      rw [deepContains_eq_V a b ha hb]
      exact V_type_ne a b ha hb hab
    exact ⟨hside x y ht, hside y x (Ne.symm ht)⟩
  · intro x y z hxy hyz
    have hx : x ≠ vNil := by rintro rfl; rw [deepContains_nilL] at hxy; cases hxy
    have hy : y ≠ vNil := by rintro rfl; rw [deepContains_nilR] at hxy; cases hxy
    have hz : z ≠ vNil := by rintro rfl; rw [deepContains_nilR] at hyz; cases hyz
    rw [deepContains_eq_V x y hx hy] at hxy
    rw [deepContains_eq_V y z hy hz] at hyz
    rw [deepContains_eq_V x z hx hz]
    exact trans_V z x y hxy hyz

/-- Counterexample for claim C9: reflexivity fails on values carrying a
function — the test row `composite-Tinterface-deepFunc-false` demands
`deepContains(c, c) = false` for the composite whose interface slot holds
a function. -/
theorem deepContains_func_not_reflexive :
    deepContains funcComposite funcComposite = false := by decide

/-- Witness for claim C9: the amended theorem applied to a concrete
function-free sample, to the differently typed pair of the
`apples-oranges` test row, and to a concrete containment chain. -/
theorem deepContains_refl_trans_types_witness :
    deepContains goSampleValue goSampleValue = true ∧
    deepContains (vInt 4) (vString "5") = false ∧
    deepContains (vString "5") (vInt 4) = false ∧
    deepContains bOne bThree = true :=
  ⟨deepContains_refl_trans_types.1 goSampleValue (fun h => GoValue.noConfusion h)
      (by decide),
   (deepContains_refl_trans_types.2.1 (vInt 4) (vString "5") (by decide)).1,
   (deepContains_refl_trans_types.2.1 (vInt 4) (vString "5") (by decide)).2,
   deepContains_refl_trans_types.2.2 bOne bTwo bThree (by decide) (by decide)⟩

end RedisOperator
